import Mathlib

/-!
# Result propagation of the build-run reconciler

A shallow embedding of `pkg/reconciler/buildrun/resources/results.go`
(package `resources`): the severity classifier `getSeverity`, the
vulnerability decoder `getImageVulnerabilitiesResult`, the output result
extractor `updateBuildRunStatusWithOutputResult` and the merge driver
`UpdateBuildRunUsingTaskResults`; and of
`pkg/controller/fakes/status_writer.go` (package `fakes`): the test double
`FakeStatusWriter` of the status writer. The definitions come first, the
properties proved about them follow.

Go strings are modelled by Lean strings (sequences of Unicode code points),
Go slices by lists (a nil slice and an empty slice are both the empty list),
`int64` by `Int` with the range checked where the code checks it, and a
run-time panic by an explicit outcome.
-/

namespace Resources

/-! ## Library functions used by the source -/

/-- Go's `unicode.ToUpper` on one rune. ASCII letters follow the ASCII branch of
the library. Outside ASCII the library consults the Unicode case tables: the two
runes whose upper case is an ASCII letter (U+0131 gives `I`, U+017F gives `S`)
are mapped as in the tables; every other rune is kept as it is, its upper case
being again a rune outside ASCII, which is all a comparison against an ASCII
literal can observe. -/
def unicodeToUpper (r : Char) : Char :=
  if 'a' ≤ r ∧ r ≤ 'z' then Char.ofNat (r.toNat - ('a'.toNat - 'A'.toNat))
  else if r = Char.ofNat 0x131 then 'I'
  else if r = Char.ofNat 0x17F then 'S'
  else r

/-- Go's `strings.ToUpper`: every rune of `s` mapped to its upper case. -/
def ToUpper (s : String) : String :=
  String.mk (s.data.map unicodeToUpper)

/-- The list-of-runes core of `strings.Split` for a one-rune separator: cut at
every occurrence of `sep`; a string without `sep` (the empty string too) gives
one piece, so the result is never empty. -/
def splitRunes (sep : Char) : List Char → List (List Char)
  | [] => [[]]
  | c :: cs =>
    if c = sep then [] :: splitRunes sep cs
    else
      match splitRunes sep cs with
      | [] => [[c]]
      | piece :: pieces => (c :: piece) :: pieces

/-- Go's `strings.Split(s, sep)` for a separator of one rune (the source calls it
with `","` and `":"`). -/
def Split (s : String) (sep : Char) : List String :=
  (splitRunes sep s.data).map String.mk

/-! ## Data model -/

/-- The type `build.VulnerabilitySeverity` with its five constants. -/
inductive VulnerabilitySeverity where
  | Critical
  | High
  | Medium
  | Low
  | Unknown
  deriving DecidableEq, Repr

/-- The type `build.Vulnerability`. -/
structure Vulnerability where
  ID : String
  Severity : VulnerabilitySeverity
  deriving DecidableEq, Repr

/-! ## Severity classifier -/

/-- Source: `getSeverity` (results.go, lines 102-115). The Go `switch` compares
the upper-cased string with each literal in turn. -/
def getSeverity (sev : String) : VulnerabilitySeverity :=
  if ToUpper sev = "L" then VulnerabilitySeverity.Low
  else if ToUpper sev = "M" then VulnerabilitySeverity.Medium
  else if ToUpper sev = "H" then VulnerabilitySeverity.High
  else if ToUpper sev = "C" then VulnerabilitySeverity.Critical
  else VulnerabilitySeverity.Unknown

/-! ## Number parsing (`strconv`) -/

/-- The two error kinds of `strconv` (`*NumError` with `ErrSyntax` or `ErrRange`). -/
inductive NumError where
  | ErrSyntax
  | ErrRange
  deriving DecidableEq, Repr

deriving instance DecidableEq for Except

/-- The largest `uint64`. -/
def maxUint64 : Nat := 2 ^ 64 - 1

/-- The digit loop of `strconv.ParseUint(s, 10, 64)`, `n` being the value read
so far. A byte that is not a decimal digit is a syntax error (in base 10 a
letter is a digit value of at least 10, an underscore is not allowed); the two
range checks are those of the library, the addition wrapping at 64 bits. -/
def parseUintLoop (n : Nat) : List Char → Except NumError Nat
  | [] => Except.ok n
  | c :: cs =>
    if '0' ≤ c ∧ c ≤ '9' then
      let d := c.toNat - '0'.toNat
      if n ≥ maxUint64 / 10 + 1 then Except.error NumError.ErrRange
      else
        let m := (n * 10) % 2 ^ 64
        let n1 := (m + d) % 2 ^ 64
        if n1 < m ∨ n1 > maxUint64 then Except.error NumError.ErrRange
        else parseUintLoop n1 cs
    else Except.error NumError.ErrSyntax

/-- Go's `strconv.ParseUint(s, 10, 64)`, on the runes of `s`. -/
def ParseUint (s : List Char) : Except NumError Nat :=
  match s with
  | [] => Except.error NumError.ErrSyntax
  | _ :: _ => parseUintLoop 0 s

/-- Go's `strconv.ParseInt(s, 10, 64)`: an optional sign, then `ParseUint`, then
the signed range check against `cutoff = 2^63`. -/
def ParseInt (s : String) : Except NumError Int :=
  match s.data with
  | [] => Except.error NumError.ErrSyntax
  | c :: cs =>
    let neg : Bool := decide (c = '-')
    let digits := if c = '+' ∨ c = '-' then cs else c :: cs
    match ParseUint digits with
    | Except.error e => Except.error e
    | Except.ok un =>
      let cutoff : Nat := 2 ^ 63
      if neg = false ∧ un ≥ cutoff then Except.error NumError.ErrRange
      else if neg = true ∧ un > cutoff then Except.error NumError.ErrRange
      else if neg = true then Except.ok (-(un : Int))
      else Except.ok (un : Int)

/-! ## Results and status -/

/-- The part of `pipelineapi.ParamValue` that the source reads. -/
structure ParamValue where
  StringVal : String
  deriving DecidableEq, Repr

/-- The part of `pipelineapi.TaskRunResult` that the source reads. -/
structure TaskRunResult where
  Name : String
  Value : ParamValue
  deriving DecidableEq, Repr

/-- The type `build.Output`; a fresh `&build.Output{}` has Go's zero values. -/
structure Output where
  Digest : String := ""
  Size : Int := 0
  Vulnerabilities : List Vulnerability := []
  deriving DecidableEq, Repr

/-- The part of `build.BuildRunStatus` that the source touches: the `Output`
pointer, `none` being nil. -/
structure BuildRunStatus where
  Output : Option Output := none
  deriving DecidableEq, Repr

/-- The type `build.BuildRun`, reduced to its status. -/
structure BuildRun where
  Status : BuildRunStatus := {}
  deriving DecidableEq, Repr

/-- How a call ended: by returning, or by a run-time panic. -/
inductive Completion where
  | returned
  | panicked
  deriving DecidableEq, Repr

/-- What a call on a `*build.BuildRun` leaves behind: the run as mutated in
place up to the end of the call, and how the call ended. -/
structure Outcome where
  buildRun : BuildRun
  completion : Completion
  deriving DecidableEq, Repr

/-- Source: constant `imageDigestResult` (results.go, line 21). -/
def imageDigestResult : String := "image-digest"

/-- Source: constant `imageSizeResult` (results.go, line 22). -/
def imageSizeResult : String := "image-size"

/-- Source: constant `imageVulnerabilities` (results.go, line 23). -/
def imageVulnerabilities : String := "image-vulnerabilities"

/-! ## Vulnerability decoder -/

/-- The `for` loop of `getImageVulnerabilitiesResult` (results.go, lines 91-98),
`vulns` being the slice built so far. `vuln[1]` is evaluated first: when the
entry has no `:` the split has one element and the index is out of range, which
is a run-time panic (`none`). -/
def vulnerabilitiesLoop (vulns : List Vulnerability) : List String → Option (List Vulnerability)
  | [] => some vulns
  | vulnerability :: rest =>
    match Split vulnerability ':' with
    | id :: sev :: _ =>
      vulnerabilitiesLoop (vulns ++ [{ ID := id, Severity := getSeverity sev }]) rest
    | _ => none

/-- Source: `getImageVulnerabilitiesResult` (results.go, lines 84-100). `none`
is a run-time panic, `some vulns` the returned slice. -/
def getImageVulnerabilitiesResult (result : TaskRunResult) : Option (List Vulnerability) :=
  if result.Value.StringVal.length = 0 then some []
  else vulnerabilitiesLoop [] (Split result.Value.StringVal ',')

/-! ## Output result extractor -/

section

-- The package constant `prefixParamsResultsVolumes` is declared in another file
-- of package `resources`; the definitions below take it as a parameter.
variable (prefixParamsResultsVolumes : String)

/-- Source: `generateOutputResultName` (results.go, lines 63-65). -/
def generateOutputResultName (resultName : String) : String :=
  prefixParamsResultsVolumes ++ "-" ++ resultName

/-- The body of the `for` loop of `updateBuildRunStatusWithOutputResult`
(results.go, lines 47-59) on the `Output` the status points to: the `switch` on
the result name. `none` is a panic raised by the decoder, before the assignment.
The log call of the size case writes to the context logger only. -/
def outputResultCase (output : Output) (result : TaskRunResult) : Option Output :=
  if result.Name = generateOutputResultName prefixParamsResultsVolumes imageDigestResult then
    some { output with Digest := result.Value.StringVal }
  else if result.Name = generateOutputResultName prefixParamsResultsVolumes imageSizeResult then
    match ParseInt result.Value.StringVal with
    | Except.error _ => some output
    | Except.ok size => some { output with Size := size }
  else if result.Name = generateOutputResultName prefixParamsResultsVolumes imageVulnerabilities then
    match getImageVulnerabilitiesResult result with
    | none => none
    | some vulns => some { output with Vulnerabilities := vulns }
  else some output

/-- The `for` loop of `updateBuildRunStatusWithOutputResult` (results.go, lines
46-60): the results in order; a panic ends the loop and leaves the output as the
earlier results made it. -/
def outputResultLoop (output : Output) : List TaskRunResult → Output × Completion
  | [] => (output, Completion.returned)
  | result :: rest =>
    match outputResultCase prefixParamsResultsVolumes output result with
    | none => (output, Completion.panicked)
    | some output' => outputResultLoop output' rest

/-- Source: `updateBuildRunStatusWithOutputResult` (results.go, lines 41-61). A
nil `Status.Output` is first replaced by a fresh `&build.Output{}`, then the
results are scanned. The context and the request only feed the log call. -/
def updateBuildRunStatusWithOutputResult (buildRun : BuildRun)
    (taskRunResult : List TaskRunResult) : Outcome :=
  let output : Output :=
    match buildRun.Status.Output with
    | none => {}
    | some output => output
  let scanned := outputResultLoop prefixParamsResultsVolumes output taskRunResult
  { buildRun := { buildRun with Status := { buildRun.Status with Output := some scanned.1 } },
    completion := scanned.2 }

end

/-! ## Status merge driver -/

/-- Source: `UpdateBuildRunUsingTaskResults` (results.go, lines 28-39): the
source results are set first, then the output results, from the same result
set. The source extractor `updateBuildRunStatusWithSourceResult` lives in
another file of package `resources` and is a parameter here; like every call on
the run it leaves the run as it mutated it and either returns or panics, and
after a panic the second statement is not reached. -/
def UpdateBuildRunUsingTaskResults (prefixParamsResultsVolumes : String)
    (updateBuildRunStatusWithSourceResult : BuildRun → List TaskRunResult → Outcome)
    (buildRun : BuildRun) (taskRunResult : List TaskRunResult) : Outcome :=
  match updateBuildRunStatusWithSourceResult buildRun taskRunResult with
  | { buildRun := buildRun', completion := Completion.panicked } =>
    { buildRun := buildRun', completion := Completion.panicked }
  | { buildRun := buildRun', completion := Completion.returned } =>
    updateBuildRunStatusWithOutputResult prefixParamsResultsVolumes buildRun' taskRunResult

/-! ## Encodings named by the specification -/

/-- The text of one vulnerability entry, `id:code`. -/
def entryText (e : String × String) : String := e.1 ++ ":" ++ e.2

/-- The wire encoding of a list of `(id, code)` pairs: the entries `id:code`
joined with `,`. -/
def encodeVulnerabilities (entries : List (String × String)) : String :=
  ",".intercalate (entries.map entryText)

/-- Go's `strconv.FormatInt(n, 10)`: the base-10 decimal rendering of `n`, a
minus sign first when `n` is negative. -/
def FormatInt (n : Int) : String :=
  match n with
  | Int.ofNat m => String.mk (Nat.toDigits 10 m)
  | Int.negSucc m => String.mk ('-' :: Nat.toDigits 10 (m + 1))

/-- The text of one vulnerability entry that may carry trailing text: `id:code`,
or `id:code:rest`. -/
def entryTextWithRest (e : String × String × Option String) : String :=
  match e.2.2 with
  | none => e.1 ++ ":" ++ e.2.1
  | some rest => e.1 ++ ":" ++ e.2.1 ++ ":" ++ rest

/-- A non-empty run of decimal digits. -/
def isDecimalDigits (ds : List Char) : Bool :=
  !ds.isEmpty && ds.all fun c => decide ('0' ≤ c ∧ c ≤ '9')

/-- The number a run of decimal digits denotes, read after the digits that
gave `acc`; no bound applies. -/
def digitsValue (acc : Nat) (ds : List Char) : Nat :=
  ds.foldl (fun n c => n * 10 + (c.toNat - '0'.toNat)) acc

/-- The value of a decimal integer literal: an optional sign `+` or `-`, then
one or more decimal digits; `none` when the string is not such a literal. -/
def literalValue (s : String) : Option Int :=
  match s.data with
  | [] => none
  | c :: cs =>
    if c = '-' then
      if isDecimalDigits cs then some (-(digitsValue 0 cs : Int)) else none
    else if c = '+' then
      if isDecimalDigits cs then some (digitsValue 0 cs : Int) else none
    else if isDecimalDigits (c :: cs) then some (digitsValue 0 (c :: cs) : Int)
    else none

end Resources

/-! ## The test double of the status writer (package `fakes`)

An embedding of `pkg/controller/fakes/status_writer.go`. Every method takes the
fake and returns the fake it leaves behind (and its result, if it has one).
Calls are taken one after another, so the mutexes, which only serialise
concurrent callers, do not appear. A stub is a pure function of its arguments.
-/

namespace Fakes

/-- The types of `context` and `sigs.k8s.io/controller-runtime/pkg/client` that
the fake passes around without looking inside; they are parameters. `Error`
holds the non-nil values of Go's `error`, so that a result of type `error` is an
`Option Error` with nil as `none`. -/
structure ClientTypes where
  Context : Type
  Object : Type
  Patch : Type
  SubResourceCreateOption : Type
  SubResourcePatchOption : Type
  SubResourceUpdateOption : Type
  Error : Type

/-- The element type of `createArgsForCall` (status_writer.go, lines 17-22). -/
structure CreateArgs (T : ClientTypes) where
  arg1 : T.Context
  arg2 : T.Object
  arg3 : T.Object
  arg4 : List T.SubResourceCreateOption

/-- The element type of `patchArgsForCall` (status_writer.go, lines 31-36). -/
structure PatchArgs (T : ClientTypes) where
  arg1 : T.Context
  arg2 : T.Object
  arg3 : T.Patch
  arg4 : List T.SubResourcePatchOption

/-- The element type of `updateArgsForCall` (status_writer.go, lines 45-49). -/
structure UpdateArgs (T : ClientTypes) where
  arg1 : T.Context
  arg2 : T.Object
  arg3 : List T.SubResourceUpdateOption

/-- One call of `Create`, `Patch` or `Update` with its arguments; also the
`[]interface{}` of arguments that `recordInvocation` stores. -/
inductive Invocation (T : ClientTypes) where
  | Create (args : CreateArgs T)
  | Patch (args : PatchArgs T)
  | Update (args : UpdateArgs T)

/-- Source: `FakeStatusWriter` (status_writer.go, lines 14-58). A nil stub is
`none`; a map is the function from keys to the value stored, `none` where the
key is absent (a nil map has no key); the zero value of the struct is `{}`. -/
structure FakeStatusWriter (T : ClientTypes) where
  CreateStub : Option (T.Context → T.Object → T.Object →
    List T.SubResourceCreateOption → Option T.Error) := none
  createArgsForCall : List (CreateArgs T) := []
  createReturns : Option T.Error := none
  createReturnsOnCall : Int → Option (Option T.Error) := fun _ => none
  PatchStub : Option (T.Context → T.Object → T.Patch →
    List T.SubResourcePatchOption → Option T.Error) := none
  patchArgsForCall : List (PatchArgs T) := []
  patchReturns : Option T.Error := none
  patchReturnsOnCall : Int → Option (Option T.Error) := fun _ => none
  UpdateStub : Option (T.Context → T.Object →
    List T.SubResourceUpdateOption → Option T.Error) := none
  updateArgsForCall : List (UpdateArgs T) := []
  updateReturns : Option T.Error := none
  updateReturnsOnCall : Int → Option (Option T.Error) := fun _ => none
  invocations : String → List (Invocation T) := fun _ => []

namespace FakeStatusWriter

variable {T : ClientTypes}

/-- Source: `recordInvocation` (status_writer.go, lines 267-277). -/
def recordInvocation (fake : FakeStatusWriter T) (key : String) (args : Invocation T) :
    FakeStatusWriter T :=
  { fake with invocations := fun k =>
      if k = key then fake.invocations k ++ [args] else fake.invocations k }

/-- Source: `Create` (status_writer.go, lines 60-80). The per-call value is
looked up at the number of calls recorded before this one; the arguments are
recorded; then the stub, the per-call value and the blanket value are tried in
that order. -/
def Create (fake : FakeStatusWriter T) (arg1 : T.Context) (arg2 arg3 : T.Object)
    (arg4 : List T.SubResourceCreateOption) : FakeStatusWriter T × Option T.Error :=
  let args : CreateArgs T := { arg1 := arg1, arg2 := arg2, arg3 := arg3, arg4 := arg4 }
  let specific := fake.createReturnsOnCall (fake.createArgsForCall.length : Int)
  let fake1 := { fake with createArgsForCall := fake.createArgsForCall ++ [args] }
  let stub := fake1.CreateStub
  let fakeReturns := fake1.createReturns
  let fake2 := fake1.recordInvocation "Create" (Invocation.Create args)
  match stub with
  | some f => (fake2, f arg1 arg2 arg3 arg4)
  | none =>
    match specific with
    | some ret => (fake2, ret)
    | none => (fake2, fakeReturns)

/-- Source: `CreateCallCount` (status_writer.go, lines 82-86). -/
def CreateCallCount (fake : FakeStatusWriter T) : Nat :=
  fake.createArgsForCall.length

/-- Source: `CreateCalls` (status_writer.go, lines 88-92). -/
def CreateCalls (fake : FakeStatusWriter T)
    (stub : Option (T.Context → T.Object → T.Object →
      List T.SubResourceCreateOption → Option T.Error)) : FakeStatusWriter T :=
  { fake with CreateStub := stub }

/-- Source: `CreateArgsForCall` (status_writer.go, lines 94-99). `none` is the
panic of an index out of range. -/
def CreateArgsForCall (fake : FakeStatusWriter T) (i : Int) : Option (CreateArgs T) :=
  if 0 ≤ i then fake.createArgsForCall[i.toNat]? else none

/-- Source: `CreateReturns` (status_writer.go, lines 101-108). -/
def CreateReturns (fake : FakeStatusWriter T) (result1 : Option T.Error) :
    FakeStatusWriter T :=
  { fake with CreateStub := none, createReturns := result1 }

/-- Source: `CreateReturnsOnCall` (status_writer.go, lines 110-122). -/
def CreateReturnsOnCall (fake : FakeStatusWriter T) (i : Int) (result1 : Option T.Error) :
    FakeStatusWriter T :=
  { fake with
    CreateStub := none
    createReturnsOnCall := fun k => if k = i then some result1 else fake.createReturnsOnCall k }

/-- Source: `Patch` (status_writer.go, lines 124-144). -/
def Patch (fake : FakeStatusWriter T) (arg1 : T.Context) (arg2 : T.Object) (arg3 : T.Patch)
    (arg4 : List T.SubResourcePatchOption) : FakeStatusWriter T × Option T.Error :=
  let args : PatchArgs T := { arg1 := arg1, arg2 := arg2, arg3 := arg3, arg4 := arg4 }
  let specific := fake.patchReturnsOnCall (fake.patchArgsForCall.length : Int)
  let fake1 := { fake with patchArgsForCall := fake.patchArgsForCall ++ [args] }
  let stub := fake1.PatchStub
  let fakeReturns := fake1.patchReturns
  let fake2 := fake1.recordInvocation "Patch" (Invocation.Patch args)
  match stub with
  | some f => (fake2, f arg1 arg2 arg3 arg4)
  | none =>
    match specific with
    | some ret => (fake2, ret)
    | none => (fake2, fakeReturns)

/-- Source: `PatchCallCount` (status_writer.go, lines 146-150). -/
def PatchCallCount (fake : FakeStatusWriter T) : Nat :=
  fake.patchArgsForCall.length

/-- Source: `PatchCalls` (status_writer.go, lines 152-156). -/
def PatchCalls (fake : FakeStatusWriter T)
    (stub : Option (T.Context → T.Object → T.Patch →
      List T.SubResourcePatchOption → Option T.Error)) : FakeStatusWriter T :=
  { fake with PatchStub := stub }

/-- Source: `PatchArgsForCall` (status_writer.go, lines 158-163). `none` is the
panic of an index out of range. -/
def PatchArgsForCall (fake : FakeStatusWriter T) (i : Int) : Option (PatchArgs T) :=
  if 0 ≤ i then fake.patchArgsForCall[i.toNat]? else none

/-- Source: `PatchReturns` (status_writer.go, lines 165-172). -/
def PatchReturns (fake : FakeStatusWriter T) (result1 : Option T.Error) :
    FakeStatusWriter T :=
  { fake with PatchStub := none, patchReturns := result1 }

/-- Source: `PatchReturnsOnCall` (status_writer.go, lines 174-186). -/
def PatchReturnsOnCall (fake : FakeStatusWriter T) (i : Int) (result1 : Option T.Error) :
    FakeStatusWriter T :=
  { fake with
    PatchStub := none
    patchReturnsOnCall := fun k => if k = i then some result1 else fake.patchReturnsOnCall k }

/-- Source: `Update` (status_writer.go, lines 188-207). -/
def Update (fake : FakeStatusWriter T) (arg1 : T.Context) (arg2 : T.Object)
    (arg3 : List T.SubResourceUpdateOption) : FakeStatusWriter T × Option T.Error :=
  let args : UpdateArgs T := { arg1 := arg1, arg2 := arg2, arg3 := arg3 }
  let specific := fake.updateReturnsOnCall (fake.updateArgsForCall.length : Int)
  let fake1 := { fake with updateArgsForCall := fake.updateArgsForCall ++ [args] }
  let stub := fake1.UpdateStub
  let fakeReturns := fake1.updateReturns
  let fake2 := fake1.recordInvocation "Update" (Invocation.Update args)
  match stub with
  | some f => (fake2, f arg1 arg2 arg3)
  | none =>
    match specific with
    | some ret => (fake2, ret)
    | none => (fake2, fakeReturns)

/-- Source: `UpdateCallCount` (status_writer.go, lines 209-213). -/
def UpdateCallCount (fake : FakeStatusWriter T) : Nat :=
  fake.updateArgsForCall.length

/-- Source: `UpdateCalls` (status_writer.go, lines 215-219). -/
def UpdateCalls (fake : FakeStatusWriter T)
    (stub : Option (T.Context → T.Object →
      List T.SubResourceUpdateOption → Option T.Error)) : FakeStatusWriter T :=
  { fake with UpdateStub := stub }

/-- Source: `UpdateArgsForCall` (status_writer.go, lines 221-226). `none` is the
panic of an index out of range. -/
def UpdateArgsForCall (fake : FakeStatusWriter T) (i : Int) : Option (UpdateArgs T) :=
  if 0 ≤ i then fake.updateArgsForCall[i.toNat]? else none

/-- Source: `UpdateReturns` (status_writer.go, lines 228-235). -/
def UpdateReturns (fake : FakeStatusWriter T) (result1 : Option T.Error) :
    FakeStatusWriter T :=
  { fake with UpdateStub := none, updateReturns := result1 }

/-- Source: `UpdateReturnsOnCall` (status_writer.go, lines 237-249). -/
def UpdateReturnsOnCall (fake : FakeStatusWriter T) (i : Int) (result1 : Option T.Error) :
    FakeStatusWriter T :=
  { fake with
    UpdateStub := none
    updateReturnsOnCall := fun k => if k = i then some result1 else fake.updateReturnsOnCall k }

/-- Source: `Invocations` (status_writer.go, lines 251-265): a copy of the map. -/
def Invocations (fake : FakeStatusWriter T) : String → List (Invocation T) :=
  fake.invocations

/-- One call, dispatched on the operation it names. -/
def call (fake : FakeStatusWriter T) : Invocation T → FakeStatusWriter T × Option T.Error
  | Invocation.Create args => fake.Create args.arg1 args.arg2 args.arg3 args.arg4
  | Invocation.Patch args => fake.Patch args.arg1 args.arg2 args.arg3 args.arg4
  | Invocation.Update args => fake.Update args.arg1 args.arg2 args.arg3

/-- A sequence of calls, one after another: the fake they leave and the value
each returned, in call order. -/
def callAll (fake : FakeStatusWriter T) : List (Invocation T) →
    FakeStatusWriter T × List (Option T.Error)
  | [] => (fake, [])
  | c :: cs =>
    let first := fake.call c
    let others := callAll first.1 cs
    (others.1, first.2 :: others.2)

end FakeStatusWriter

/-- The `Create` calls of a sequence, in order. -/
def createCalls {T : ClientTypes} (calls : List (Invocation T)) : List (CreateArgs T) :=
  calls.filterMap fun c => match c with
    | Invocation.Create args => some args
    | _ => none

/-- The `Patch` calls of a sequence, in order. -/
def patchCalls {T : ClientTypes} (calls : List (Invocation T)) : List (PatchArgs T) :=
  calls.filterMap fun c => match c with
    | Invocation.Patch args => some args
    | _ => none

/-- The `Update` calls of a sequence, in order. -/
def updateCalls {T : ClientTypes} (calls : List (Invocation T)) : List (UpdateArgs T) :=
  calls.filterMap fun c => match c with
    | Invocation.Update args => some args
    | _ => none

/-- The value configured for call number `k` of an operation: the per-call
value stored for `k` when there is one, the blanket value otherwise. -/
def configuredReturn {E : Type} (returnsOnCall : Int → Option (Option E))
    (returns : Option E) (k : Nat) : Option E :=
  match returnsOnCall (k : Int) with
  | some ret => ret
  | none => returns

/-- Modelled from the spec: the status commit of the Status Persistence Adapter
(sections 4.6 and 5), whose code is not among the source files; only the test
double it is exercised against is. Before every attempt the context is looked
at: `contextErr ctx n` is what the context reports before attempt number `n`,
nil while it is live and the cancellation error once it is cancelled or past
its deadline; a context that is done ends the commit at once with that error,
without an attempt and without a retry. One attempt sends the object through
`Patch` of the status writer. A nil result is `Committed`. A conflict is
recoverable while retries are left: the remote object is read again (`refetch
n` is what attempt number `n` reads; other writers may have changed it), the
merge is run on what was read, and the commit is attempted again with the
result. A conflict with no retry left, or any other error, is `Failed` and the
error is returned to the caller. -/
def commitStatus {T : ClientTypes} (isConflict : T.Error → Bool)
    (contextErr : T.Context → Nat → Option T.Error) (refetch : Nat → T.Object)
    (merge : T.Object → T.Object) (patchOf : T.Object → T.Patch) (ctx : T.Context) :
    Nat → Nat → T.Object → FakeStatusWriter T → FakeStatusWriter T × Option T.Error
  | 0, attempt, object, writer =>
    match contextErr ctx attempt with
    | some cancelled => (writer, some cancelled)
    | none => writer.Patch ctx object (patchOf object) []
  | retries + 1, attempt, object, writer =>
    match contextErr ctx attempt with
    | some cancelled => (writer, some cancelled)
    | none =>
      let sent := writer.Patch ctx object (patchOf object) []
      match sent.2 with
      | none => (sent.1, none)
      | some err =>
        if isConflict err = true then
          commitStatus isConflict contextErr refetch merge patchOf ctx retries (attempt + 1)
            (merge (refetch (attempt + 1))) sent.1
        else (sent.1, some err)

/-- Concrete client types for the examples: objects, patches and errors are
strings, contexts and options carry nothing. -/
@[reducible] def exampleTypes : ClientTypes :=
  { Context := Unit, Object := String, Patch := String,
    SubResourceCreateOption := Unit, SubResourcePatchOption := Unit,
    SubResourceUpdateOption := Unit, Error := String }

/-- The fake of the conflict scenario: fresh, then configured to return a
conflict on the first `Patch` and nil on the second. -/
def conflictThenSuccess : FakeStatusWriter exampleTypes :=
  (({} : FakeStatusWriter exampleTypes).PatchReturnsOnCall 0
    (some "conflict")).PatchReturnsOnCall 1 none

end Fakes

namespace Resources

/-! ## Severity classifier: properties -/

theorem lower_range (c : Char) (h : 'a' ≤ c ∧ c ≤ 'z') :
    ∃ n, 97 ≤ n ∧ n ≤ 122 ∧ c = Char.ofNat n := by
  refine ⟨c.toNat, ?_, ?_, (Char.ofNat_toNat c).symm⟩
  · exact Char.le_def.mp h.1
  · exact Char.le_def.mp h.2

/-- The runes whose upper case is one of the four severity letters are the
letter itself and its lower case. -/
theorem unicodeToUpper_letters (c : Char) :
    (unicodeToUpper c = 'L' ↔ c = 'L' ∨ c = 'l') ∧
    (unicodeToUpper c = 'M' ↔ c = 'M' ∨ c = 'm') ∧
    (unicodeToUpper c = 'H' ↔ c = 'H' ∨ c = 'h') ∧
    (unicodeToUpper c = 'C' ↔ c = 'C' ∨ c = 'c') := by
  by_cases h : 'a' ≤ c ∧ c ≤ 'z'
  · obtain ⟨n, h1, h2, rfl⟩ := lower_range c h
    interval_cases n <;> decide
  · have hl : c ≠ 'l' := by rintro rfl; exact h (by decide)
    have hm : c ≠ 'm' := by rintro rfl; exact h (by decide)
    have hh : c ≠ 'h' := by rintro rfl; exact h (by decide)
    have hc : c ≠ 'c' := by rintro rfl; exact h (by decide)
    by_cases h1 : c = Char.ofNat 0x131
    · subst h1; decide
    · by_cases h2 : c = Char.ofNat 0x17F
      · subst h2; decide
      · simp [unicodeToUpper, h, h1, h2, hl, hm, hh, hc]

theorem ToUpper_eq_single (s : String) (t : Char) :
    ToUpper s = String.mk [t] ↔ ∃ c, s = String.mk [c] ∧ unicodeToUpper c = t := by
  constructor
  · intro h
    have hd : s.data.map unicodeToUpper = [t] := congrArg String.data h
    match hs : s.data, hd with
    | [c], hd =>
      refine ⟨c, String.ext hs, ?_⟩
      simpa using hd
  · rintro ⟨c, rfl, rfl⟩
    rfl

theorem ToUpper_eq_L (s : String) : ToUpper s = "L" ↔ s = "L" ∨ s = "l" := by
  show ToUpper s = String.mk ['L'] ↔ s = String.mk ['L'] ∨ s = String.mk ['l']
  rw [ToUpper_eq_single]
  constructor
  · rintro ⟨c, rfl, hc⟩
    rcases (unicodeToUpper_letters c).1.mp hc with rfl | rfl
    · exact Or.inl rfl
    · exact Or.inr rfl
  · rintro (rfl | rfl)
    · exact ⟨'L', rfl, by decide⟩
    · exact ⟨'l', rfl, by decide⟩

theorem ToUpper_eq_M (s : String) : ToUpper s = "M" ↔ s = "M" ∨ s = "m" := by
  show ToUpper s = String.mk ['M'] ↔ s = String.mk ['M'] ∨ s = String.mk ['m']
  rw [ToUpper_eq_single]
  constructor
  · rintro ⟨c, rfl, hc⟩
    rcases (unicodeToUpper_letters c).2.1.mp hc with rfl | rfl
    · exact Or.inl rfl
    · exact Or.inr rfl
  · rintro (rfl | rfl)
    · exact ⟨'M', rfl, by decide⟩
    · exact ⟨'m', rfl, by decide⟩

theorem ToUpper_eq_H (s : String) : ToUpper s = "H" ↔ s = "H" ∨ s = "h" := by
  show ToUpper s = String.mk ['H'] ↔ s = String.mk ['H'] ∨ s = String.mk ['h']
  rw [ToUpper_eq_single]
  constructor
  · rintro ⟨c, rfl, hc⟩
    rcases (unicodeToUpper_letters c).2.2.1.mp hc with rfl | rfl
    · exact Or.inl rfl
    · exact Or.inr rfl
  · rintro (rfl | rfl)
    · exact ⟨'H', rfl, by decide⟩
    · exact ⟨'h', rfl, by decide⟩

theorem ToUpper_eq_C (s : String) : ToUpper s = "C" ↔ s = "C" ∨ s = "c" := by
  show ToUpper s = String.mk ['C'] ↔ s = String.mk ['C'] ∨ s = String.mk ['c']
  rw [ToUpper_eq_single]
  constructor
  · rintro ⟨c, rfl, hc⟩
    rcases (unicodeToUpper_letters c).2.2.2.mp hc with rfl | rfl
    · exact Or.inl rfl
    · exact Or.inr rfl
  · rintro (rfl | rfl)
    · exact ⟨'C', rfl, by decide⟩
    · exact ⟨'c', rfl, by decide⟩

/-- C1: `getSeverity` is total and is decided by its argument alone: the
strings `L`, `M`, `H`, `C` and their lower-case forms give Low, Medium, High and
Critical respectively, and every other string (the empty string and every
string of two or more runes included) gives Unknown. -/
theorem getSeverity_total (s : String) :
    getSeverity s =
      if s = "L" ∨ s = "l" then VulnerabilitySeverity.Low
      else if s = "M" ∨ s = "m" then VulnerabilitySeverity.Medium
      else if s = "H" ∨ s = "h" then VulnerabilitySeverity.High
      else if s = "C" ∨ s = "c" then VulnerabilitySeverity.Critical
      else VulnerabilitySeverity.Unknown := by
  simp only [getSeverity, ToUpper_eq_L, ToUpper_eq_M, ToUpper_eq_H, ToUpper_eq_C]

/-! ## Vulnerability decoder: properties -/

theorem splitRunes_ne_nil (sep : Char) (s : List Char) : splitRunes sep s ≠ [] := by
  cases s with
  | nil => simp [splitRunes]
  | cons c cs =>
    unfold splitRunes
    split
    · simp
    · split <;> simp

theorem splitRunes_of_not_mem (sep : Char) (a : List Char) (h : sep ∉ a) :
    splitRunes sep a = [a] := by
  induction a with
  | nil => rfl
  | cons c cs ih =>
    have hc : c ≠ sep := fun e => h (by simp [e])
    have hcs : sep ∉ cs := fun e => h (by simp [e])
    simp [splitRunes, hc, ih hcs]

theorem splitRunes_append (sep : Char) (a b : List Char) (h : sep ∉ a) :
    splitRunes sep (a ++ sep :: b) = a :: splitRunes sep b := by
  induction a with
  | nil => simp [splitRunes]
  | cons c cs ih =>
    have hc : c ≠ sep := fun e => h (by simp [e])
    have hcs : sep ∉ cs := fun e => h (by simp [e])
    simp [splitRunes, hc, ih hcs]

theorem intercalate_go_data (sep acc : String) (l : List String) :
    (String.intercalate.go acc sep l).data =
      acc.data ++ (l.map fun a => sep.data ++ a.data).flatten := by
  induction l generalizing acc with
  | nil => simp [String.intercalate.go]
  | cons a as ih => simp [String.intercalate.go, ih, String.data_append]


theorem splitRunes_joined (sep : Char) (a : List Char) (as : List (List Char))
    (ha : sep ∉ a) (has : ∀ x ∈ as, sep ∉ x) :
    splitRunes sep (a ++ (as.map fun x => sep :: x).flatten) = a :: as := by
  induction as generalizing a with
  | nil => simpa using splitRunes_of_not_mem sep a ha
  | cons b bs ih =>
    have hb : sep ∉ b := has b (by simp)
    have hbs : ∀ x ∈ bs, sep ∉ x := fun x hx => has x (by simp [hx])
    have := ih b hb hbs
    simp only [List.map_cons, List.flatten_cons, List.cons_append]
    rw [splitRunes_append sep a _ ha, this]

theorem entryText_data (e : String × String) :
    (entryText e).data = e.1.data ++ ':' :: e.2.data := by
  simp [entryText, String.data_append]

theorem Split_entryText (e : String × String) (h1 : ':' ∉ e.1.data) (h2 : ':' ∉ e.2.data) :
    Split (entryText e) ':' = [e.1, e.2] := by
  simp [Split, entryText_data, splitRunes_append _ _ _ h1, splitRunes_of_not_mem _ _ h2]

theorem Split_encode (e : String × String) (es : List (String × String))
    (h : ∀ x ∈ e :: es, ',' ∉ x.1.data ∧ ',' ∉ x.2.data) :
    Split (",".intercalate ((e :: es).map entryText)) ',' = (e :: es).map entryText := by
  have hd : ∀ x ∈ e :: es, ',' ∉ (entryText x).data := by
    intro x hx
    have := h x hx
    simp [entryText_data, this.1, this.2]
  have hdata : (",".intercalate ((e :: es).map entryText)).data =
      (entryText e).data ++ ((es.map fun x => (entryText x).data).map fun x => ',' :: x).flatten := by
    simp [String.intercalate, intercalate_go_data, List.map_map, Function.comp_def]
  unfold Split
  rw [hdata, splitRunes_joined ',' _ _ (hd e (by simp))]
  · simp [List.map_map, Function.comp_def]
  · intro x hx
    obtain ⟨y, hy, rfl⟩ := List.mem_map.mp hx
    exact hd y (by simp [hy])

theorem vulnerabilitiesLoop_entries (es : List (String × String)) (vulns : List Vulnerability)
    (h : ∀ x ∈ es, ':' ∉ x.1.data ∧ ':' ∉ x.2.data) :
    vulnerabilitiesLoop vulns (es.map entryText) =
      some (vulns ++ es.map fun e => { ID := e.1, Severity := getSeverity e.2 }) := by
  induction es generalizing vulns with
  | nil => simp [vulnerabilitiesLoop]
  | cons e es ih =>
    have he := h e (by simp)
    have hes : ∀ x ∈ es, ':' ∉ x.1.data ∧ ':' ∉ x.2.data := fun x hx => h x (by simp [hx])
    simp [vulnerabilitiesLoop, Split_entryText e he.1 he.2, ih _ hes]

/-- C2: decoding undoes encoding. For every list of `(id, code)` pairs in which
no id and no code contains `,` or `:`, the decoder applied to the entries
`id:code` joined with `,` returns normally, with one record per pair, in the
same order, `ID = id` and `Severity = getSeverity code`; the empty list, whose
encoding is the empty string, gives the empty sequence. -/
theorem decode_encode (name : String) (entries : List (String × String))
    (h : ∀ e ∈ entries, (',' ∉ e.1.data ∧ ':' ∉ e.1.data) ∧ (',' ∉ e.2.data ∧ ':' ∉ e.2.data)) :
    getImageVulnerabilitiesResult
        { Name := name, Value := { StringVal := encodeVulnerabilities entries } } =
      some (entries.map fun e => { ID := e.1, Severity := getSeverity e.2 }) := by
  cases entries with
  | nil => rfl
  | cons e es =>
    have hlen : (encodeVulnerabilities (e :: es)).length ≠ 0 := by
      have : (encodeVulnerabilities (e :: es)).data ≠ [] := by
        show (String.intercalate.go (entryText e) "," (es.map entryText)).data ≠ []
        rw [intercalate_go_data, entryText_data]
        simp
      exact fun hl => this (List.length_eq_zero.mp hl)
    have hsplit := Split_encode e es (fun x hx => ⟨(h x hx).1.1, (h x hx).2.1⟩)
    have hloop := vulnerabilitiesLoop_entries (e :: es) []
      (fun x hx => ⟨(h x hx).1.2, (h x hx).2.2⟩)
    unfold getImageVulnerabilitiesResult
    simp only [hlen, if_false]
    show vulnerabilitiesLoop [] (Split (",".intercalate ((e :: es).map entryText)) ',') = _
    rw [hsplit, hloop]
    simp

/-- Witness of C2: `cve-1:H,cve-2:l` decodes to `cve-1` High, `cve-2` Low. -/
theorem decode_encode_witness :
    getImageVulnerabilitiesResult
        { Name := "image-vulnerabilities", Value := { StringVal := "cve-1:H,cve-2:l" } } =
      some [{ ID := "cve-1", Severity := VulnerabilitySeverity.High },
            { ID := "cve-2", Severity := VulnerabilitySeverity.Low }] :=
  decode_encode "image-vulnerabilities" [("cve-1", "H"), ("cve-2", "l")] (by decide)

/-- C3, evaluated on the code: on `cve-1:H,cve-2`, whose second entry has no
`:`, the decoder does not skip the entry and return the record of `cve-1`; the
index `vuln[1]` is out of range and the call panics. -/
theorem decoder_panics_on_missing_separator :
    getImageVulnerabilitiesResult
        { Name := "image-vulnerabilities", Value := { StringVal := "cve-1:H,cve-2" } } = none := by
  decide

/-! ## Size parsing: properties -/

theorem digitChar_decimal (d : Nat) (h : d < 10) :
    ('0' ≤ Nat.digitChar d ∧ Nat.digitChar d ≤ '9') ∧
      (Nat.digitChar d).toNat - '0'.toNat = d := by
  interval_cases d <;> decide

theorem parseUintLoop_digit (acc d : Nat) (cs : List Char) (hd : d < 10)
    (h : acc * 10 + d < 2 ^ 64) :
    parseUintLoop acc (Nat.digitChar d :: cs) = parseUintLoop (acc * 10 + d) cs := by
  obtain ⟨hr, hv⟩ := digitChar_decimal d hd
  have h1 : ¬ (acc ≥ maxUint64 / 10 + 1) := by unfold maxUint64; omega
  have h2 : (acc * 10 + d) % 2 ^ 64 = acc * 10 + d := by omega
  have h3 : (acc * 10) % 2 ^ 64 = acc * 10 := by omega
  have h4 : ¬ (acc * 10 + d < acc * 10 ∨ acc * 10 + d > maxUint64) := by unfold maxUint64; omega
  simp only [parseUintLoop, hr, and_self, if_true, hv, h1, if_false, h2, h3, h4]

theorem parseUintLoop_toDigitsCore (fuel : Nat) :
    ∀ n : Nat, n < fuel → ∃ k : Nat, ∀ (acc : Nat) (ds : List Char),
      acc * 10 ^ k + n < 2 ^ 64 →
      parseUintLoop acc (Nat.toDigitsCore 10 fuel n ds) = parseUintLoop (acc * 10 ^ k + n) ds := by
  induction fuel with
  | zero => intro n hn; omega
  | succ fuel ih =>
    intro n hn
    by_cases h0 : n / 10 = 0
    · refine ⟨1, fun acc ds hb => ?_⟩
      have hlt : n < 10 := by omega
      have hmod : n % 10 = n := Nat.mod_eq_of_lt hlt
      simp only [Nat.toDigitsCore, h0, if_true, hmod]
      rw [parseUintLoop_digit acc n ds hlt (by simpa using hb)]
      simp
    · obtain ⟨k, hk⟩ := ih (n / 10) (by omega)
      refine ⟨k + 1, fun acc ds hb => ?_⟩
      have hpow : acc * 10 ^ (k + 1) + n = (acc * 10 ^ k + n / 10) * 10 + n % 10 := by
        rw [pow_succ]; have := Nat.div_add_mod n 10; nlinarith
      have hb1 : acc * 10 ^ k + n / 10 < 2 ^ 64 := by
        rw [hpow] at hb; omega
      simp only [Nat.toDigitsCore, h0, if_false]
      rw [hk acc _ hb1, parseUintLoop_digit _ _ ds (Nat.mod_lt n (by norm_num)) (by rw [← hpow]; exact hb)]
      rw [hpow]

theorem parseUintLoop_toDigits (n : Nat) (h : n < 2 ^ 64) :
    parseUintLoop 0 (Nat.toDigits 10 n) = Except.ok n := by
  obtain ⟨k, hk⟩ := parseUintLoop_toDigitsCore (n + 1) n (Nat.lt_succ_self n)
  have := hk 0 [] (by simpa using h)
  simpa [Nat.toDigits, parseUintLoop] using this

theorem parseUintLoop_head (acc : Nat) (c : Char) (cs : List Char) (n : Nat)
    (h : parseUintLoop acc (c :: cs) = Except.ok n) : '0' ≤ c ∧ c ≤ '9' := by
  by_contra hc
  simp [parseUintLoop, hc] at h

theorem toDigits_ne_nil (n : Nat) : Nat.toDigits 10 n ≠ [] := by
  intro h
  have hlen := congrArg List.length h
  unfold Nat.toDigits at hlen
  rw [Nat.toDigitsCore] at hlen
  split at hlen
  · simp at hlen
  · rw [Nat.toDigitsCore_lens_eq] at hlen
    simp at hlen

theorem ParseInt_digits (m : Nat) (hm : m < 2 ^ 64) :
    ∃ c cs, Nat.toDigits 10 m = c :: cs ∧ c ≠ '+' ∧ c ≠ '-' ∧
      ParseUint (c :: cs) = Except.ok m := by
  have hp := parseUintLoop_toDigits m hm
  match hs : Nat.toDigits 10 m, hp with
  | [], _ => exact absurd hs (toDigits_ne_nil m)
  | c :: cs, hp =>
    have hc := parseUintLoop_head 0 c cs m hp
    refine ⟨c, cs, rfl, ?_, ?_, hp⟩
    · rintro rfl; exact absurd hc (by decide)
    · rintro rfl; exact absurd hc (by decide)

/-- Parsing undoes rendering on the whole `int64` range. -/
theorem ParseInt_FormatInt (n : Int) (hlo : -2 ^ 63 ≤ n) (hhi : n < 2 ^ 63) :
    ParseInt (FormatInt n) = Except.ok n := by
  cases n with
  | ofNat m =>
    simp only [Int.ofNat_eq_coe] at hhi hlo ⊢
    have hm : m < 2 ^ 63 := by omega
    obtain ⟨c, cs, hs, hplus, hminus, hp⟩ := ParseInt_digits m (by omega)
    have hnot : ¬ (m ≥ 2 ^ 63) := by omega
    simp only [ParseInt, FormatInt, hs, hplus, hminus, or_self, if_false, hp,
      decide_False, hnot, and_false, Bool.false_eq_true, false_and]
  | negSucc m =>
    have hm : m + 1 ≤ 2 ^ 63 := by
      have := Int.negSucc_eq m
      omega
    obtain ⟨c, cs, hs, -, -, hp⟩ := ParseInt_digits (m + 1) (by omega)
    have hnot : ¬ (m + 1 > 2 ^ 63) := by omega
    simp only [ParseInt, FormatInt, hs, or_true, if_true, hp, decide_True,
      Bool.true_eq_false, false_and, hnot, and_false, if_false, Int.negSucc_eq]
    simp

/-! ## Output result extractor: the scan -/

theorem generateOutputResultName_inj (p a b : String)
    (h : generateOutputResultName p a = generateOutputResultName p b) : a = b := by
  have hd := congrArg String.data h
  simp only [generateOutputResultName, String.data_append, List.append_assoc] at hd
  exact String.ext (List.append_cancel_left (List.append_cancel_left hd))

theorem sizeName_ne_digestName (p : String) :
    generateOutputResultName p imageSizeResult ≠ generateOutputResultName p imageDigestResult :=
  fun h => absurd (generateOutputResultName_inj p _ _ h) (by decide)

theorem vulnName_ne_digestName (p : String) :
    generateOutputResultName p imageVulnerabilities ≠
      generateOutputResultName p imageDigestResult :=
  fun h => absurd (generateOutputResultName_inj p _ _ h) (by decide)

theorem vulnName_ne_sizeName (p : String) :
    generateOutputResultName p imageVulnerabilities ≠
      generateOutputResultName p imageSizeResult :=
  fun h => absurd (generateOutputResultName_inj p _ _ h) (by decide)

theorem outputResultCase_digest (p : String) (o : Output) (r : TaskRunResult)
    (h : r.Name = generateOutputResultName p imageDigestResult) :
    outputResultCase p o r = some { o with Digest := r.Value.StringVal } := by
  simp [outputResultCase, h]

theorem outputResultCase_size_error (p : String) (o : Output) (r : TaskRunResult) (e : NumError)
    (h : r.Name = generateOutputResultName p imageSizeResult)
    (he : ParseInt r.Value.StringVal = Except.error e) :
    outputResultCase p o r = some o := by
  simp [outputResultCase, h, sizeName_ne_digestName, he]

theorem outputResultCase_size_ok (p : String) (o : Output) (r : TaskRunResult) (n : Int)
    (h : r.Name = generateOutputResultName p imageSizeResult)
    (he : ParseInt r.Value.StringVal = Except.ok n) :
    outputResultCase p o r = some { o with Size := n } := by
  simp [outputResultCase, h, sizeName_ne_digestName, he]

theorem outputResultCase_vulnerabilities (p : String) (o : Output) (r : TaskRunResult)
    (h : r.Name = generateOutputResultName p imageVulnerabilities) :
    outputResultCase p o r =
      (getImageVulnerabilitiesResult r).map fun v => { o with Vulnerabilities := v } := by
  simp only [outputResultCase, h, vulnName_ne_digestName, vulnName_ne_sizeName, if_false, if_true]
  cases getImageVulnerabilitiesResult r <;> rfl

theorem outputResultCase_other (p : String) (o : Output) (r : TaskRunResult)
    (h : r.Name ≠ generateOutputResultName p imageVulnerabilities) :
    ∃ o', outputResultCase p o r = some o' ∧ o'.Vulnerabilities = o.Vulnerabilities := by
  unfold outputResultCase
  split
  · exact ⟨_, rfl, rfl⟩
  · split
    · split
      · exact ⟨_, rfl, rfl⟩
      · exact ⟨_, rfl, rfl⟩
    · simp [h]

/-- The scan of a concatenation: the second part is scanned from where the first
part ended, unless the first part panicked. -/
theorem outputResultLoop_append (p : String) (o : Output) (pre post : List TaskRunResult) :
    outputResultLoop p o (pre ++ post) =
      match outputResultLoop p o pre with
      | (o', Completion.returned) => outputResultLoop p o' post
      | (o', Completion.panicked) => (o', Completion.panicked) := by
  induction pre generalizing o with
  | nil => simp [outputResultLoop]
  | cons r rs ih =>
    simp only [List.cons_append, outputResultLoop]
    cases outputResultCase p o r with
    | none => rfl
    | some o' => exact ih o'

/-- The scan returns exactly when no vulnerabilities result makes the decoder
panic. -/
theorem outputResultLoop_returned_iff (p : String) (o : Output) (rs : List TaskRunResult) :
    (outputResultLoop p o rs).2 = Completion.returned ↔
      ∀ x ∈ rs, x.Name = generateOutputResultName p imageVulnerabilities →
        getImageVulnerabilitiesResult x ≠ none := by
  induction rs generalizing o with
  | nil => simp [outputResultLoop]
  | cons r rs ih =>
    by_cases hr : r.Name = generateOutputResultName p imageVulnerabilities
    · simp only [outputResultLoop, outputResultCase_vulnerabilities p o r hr, List.mem_cons,
        forall_eq_or_imp, hr, true_implies]
      cases hv : getImageVulnerabilitiesResult r with
      | none => simp
      | some v => simpa using ih _
    · obtain ⟨o', ho', -⟩ := outputResultCase_other p o r hr
      simp only [outputResultLoop, ho', List.mem_cons, forall_eq_or_imp, hr, false_implies,
        true_and]
      exact ih o'

/-- What a scan does to the output does not depend on the output it starts
from: each field is either kept or set to a value fixed by the results. -/
theorem outputResultLoop_summary (p : String) (rs : List TaskRunResult) :
    ∃ (d : Option String) (z : Option Int) (v : Option (List Vulnerability)) (c : Completion),
      ∀ o : Output, outputResultLoop p o rs =
        ({ Digest := d.getD o.Digest, Size := z.getD o.Size,
           Vulnerabilities := v.getD o.Vulnerabilities }, c) := by
  induction rs with
  | nil => exact ⟨none, none, none, Completion.returned, fun o => rfl⟩
  | cons r rs ih =>
    obtain ⟨d, z, v, c, h⟩ := ih
    by_cases hd : r.Name = generateOutputResultName p imageDigestResult
    · refine ⟨some (d.getD r.Value.StringVal), z, v, c, fun o => ?_⟩
      simp only [outputResultLoop, outputResultCase_digest p o r hd, h]
      cases d <;> rfl
    · by_cases hz : r.Name = generateOutputResultName p imageSizeResult
      · cases hp : ParseInt r.Value.StringVal with
        | error e =>
          refine ⟨d, z, v, c, fun o => ?_⟩
          simp only [outputResultLoop, outputResultCase_size_error p o r e hz hp, h]
        | ok n =>
          refine ⟨d, some (z.getD n), v, c, fun o => ?_⟩
          simp only [outputResultLoop, outputResultCase_size_ok p o r n hz hp, h]
          cases z <;> rfl
      · by_cases hv : r.Name = generateOutputResultName p imageVulnerabilities
        · cases hg : getImageVulnerabilitiesResult r with
          | none =>
            refine ⟨none, none, none, Completion.panicked, fun o => ?_⟩
            simp only [outputResultLoop, outputResultCase_vulnerabilities p o r hv, hg]
            rfl
          | some w =>
            refine ⟨d, z, some (v.getD w), c, fun o => ?_⟩
            simp only [outputResultLoop, outputResultCase_vulnerabilities p o r hv, hg, h]
            cases v <;> rfl
        · refine ⟨d, z, v, c, fun o => ?_⟩
          have : outputResultCase p o r = some o := by simp [outputResultCase, hd, hz, hv]
          simp only [outputResultLoop, this, h]

theorem outputResultLoop_idem (p : String) (o : Output) (rs : List TaskRunResult) :
    outputResultLoop p (outputResultLoop p o rs).1 rs = outputResultLoop p o rs := by
  obtain ⟨d, z, v, c, h⟩ := outputResultLoop_summary p rs
  rw [h o, h]
  cases d <;> cases z <;> cases v <;> rfl

/-- A result under another name than `name` keeps `f` of the output, whenever
each case of the switch does. -/
theorem outputResultLoop_keeps {α : Type} (p : String) (f : Output → α) (name : String)
    (hcase : ∀ (o o' : Output) (r : TaskRunResult), r.Name ≠ name →
      outputResultCase p o r = some o' → f o' = f o)
    (rs : List TaskRunResult) (o : Output) (h : ∀ x ∈ rs, x.Name ≠ name) :
    f (outputResultLoop p o rs).1 = f o := by
  induction rs generalizing o with
  | nil => rfl
  | cons r rs ih =>
    have hr : r.Name ≠ name := h r (by simp)
    have hrs : ∀ x ∈ rs, x.Name ≠ name := fun x hx => h x (by simp [hx])
    simp only [outputResultLoop]
    cases hc : outputResultCase p o r with
    | none => rfl
    | some o' => exact (ih o' hrs).trans (hcase o o' r hr hc)

theorem outputResultCase_keeps_digest (p : String) (o o' : Output) (r : TaskRunResult)
    (hr : r.Name ≠ generateOutputResultName p imageDigestResult)
    (hc : outputResultCase p o r = some o') : o'.Digest = o.Digest := by
  unfold outputResultCase at hc
  simp only [hr, if_false] at hc
  split at hc
  · split at hc <;> (cases hc; rfl)
  · split at hc
    · split at hc
      · cases hc
      · cases hc; rfl
    · cases hc; rfl

theorem outputResultCase_keeps_size (p : String) (o o' : Output) (r : TaskRunResult)
    (hr : r.Name ≠ generateOutputResultName p imageSizeResult)
    (hc : outputResultCase p o r = some o') : o'.Size = o.Size := by
  unfold outputResultCase at hc
  simp only [hr, if_false] at hc
  split at hc
  · cases hc; rfl
  · split at hc
    · split at hc
      · cases hc
      · cases hc; rfl
    · cases hc; rfl

theorem outputResultCase_keeps_vulnerabilities (p : String) (o o' : Output) (r : TaskRunResult)
    (hr : r.Name ≠ generateOutputResultName p imageVulnerabilities)
    (hc : outputResultCase p o r = some o') : o'.Vulnerabilities = o.Vulnerabilities := by
  obtain ⟨o'', ho'', hk⟩ := outputResultCase_other p o r hr
  rw [ho''] at hc
  cases hc
  exact hk

/-- The output the scan starts from: the one the status points to, or the fresh
one that replaces a nil pointer. -/
theorem update_eq (p : String) (buildRun : BuildRun) (rs : List TaskRunResult) :
    updateBuildRunStatusWithOutputResult p buildRun rs =
      { buildRun := { buildRun with Status := { buildRun.Status with
          Output := some (outputResultLoop p (buildRun.Status.Output.getD {}) rs).1 } },
        completion := (outputResultLoop p (buildRun.Status.Output.getD {}) rs).2 } := by
  unfold updateBuildRunStatusWithOutputResult
  cases buildRun.Status.Output <;> rfl

/-- The call returns exactly when no vulnerabilities result makes the decoder
panic. -/
theorem update_returned_iff (p : String) (buildRun : BuildRun) (rs : List TaskRunResult) :
    (updateBuildRunStatusWithOutputResult p buildRun rs).completion = Completion.returned ↔
      ∀ x ∈ rs, x.Name = generateOutputResultName p imageVulnerabilities →
        getImageVulnerabilitiesResult x ≠ none := by
  rw [update_eq]
  exact outputResultLoop_returned_iff p _ rs

/-- When the scan of `pre ++ r :: post` returns, the scan of `pre` returned, and
the outcome is that of `r :: post` scanned from where `pre` ended. -/
theorem outputResultLoop_split (p : String) (o : Output) (pre post : List TaskRunResult)
    (r : TaskRunResult)
    (h : (outputResultLoop p o (pre ++ r :: post)).2 = Completion.returned) :
    ∃ o₁ o₂, outputResultLoop p o pre = (o₁, Completion.returned) ∧
      outputResultCase p o₁ r = some o₂ ∧
      outputResultLoop p o (pre ++ r :: post) = outputResultLoop p o₂ post := by
  rw [outputResultLoop_append] at h ⊢
  match hpre : outputResultLoop p o pre, h with
  | (o₁, Completion.returned), h =>
    simp only [outputResultLoop] at h ⊢
    cases hc : outputResultCase p o₁ r with
    | none => simp [hc] at h
    | some o₂ => exact ⟨o₁, o₂, rfl, hc, rfl⟩
  | (o₁, Completion.panicked), h => cases h

/-! ## Output result extractor: properties -/

/-- C4: a result named `<prefix>-image-size` whose value `ParseInt` rejects is
isolated. Its case of the switch leaves the output as it was (so `Size` keeps
the value it had before that result), and the scan goes on: for every starting
run and all results before and after it, the call ends exactly as it does on
the result set without that result, so every other result is applied as if the
bad one were absent. -/
theorem size_parse_failure_isolated (p : String) (buildRun : BuildRun)
    (pre post : List TaskRunResult) (r : TaskRunResult) (e : NumError)
    (hr : r.Name = generateOutputResultName p imageSizeResult)
    (he : ParseInt r.Value.StringVal = Except.error e) :
    (∀ o : Output, outputResultCase p o r = some o) ∧
      updateBuildRunStatusWithOutputResult p buildRun (pre ++ r :: post) =
        updateBuildRunStatusWithOutputResult p buildRun (pre ++ post) := by
  have hcase : ∀ o : Output, outputResultCase p o r = some o :=
    fun o => outputResultCase_size_error p o r e hr he
  refine ⟨hcase, ?_⟩
  have hloop : ∀ o : Output, outputResultLoop p o (pre ++ r :: post) =
      outputResultLoop p o (pre ++ post) := by
    intro o
    rw [outputResultLoop_append, outputResultLoop_append p o pre post]
    have : ∀ o₁ : Output, outputResultLoop p o₁ (r :: post) = outputResultLoop p o₁ post := by
      intro o₁
      simp only [outputResultLoop, hcase o₁]
    match outputResultLoop p o pre with
    | (o₁, Completion.returned) => exact this o₁
    | (o₁, Completion.panicked) => rfl
  simp only [updateBuildRunStatusWithOutputResult, hloop]

/-- Witness of C4: from a run whose size is 42, the size `not-a-number` followed
by the digest `sha256:abcd` leaves the size at 42 and sets the digest. -/
theorem size_parse_failure_isolated_witness :
    updateBuildRunStatusWithOutputResult "shp"
        { Status := { Output := some { Size := 42 } } }
        [{ Name := "shp-image-size", Value := { StringVal := "not-a-number" } },
         { Name := "shp-image-digest", Value := { StringVal := "sha256:abcd" } }] =
      { buildRun := { Status := { Output := some { Digest := "sha256:abcd", Size := 42 } } },
        completion := Completion.returned } :=
  (size_parse_failure_isolated "shp" { Status := { Output := some { Size := 42 } } } []
    [{ Name := "shp-image-digest", Value := { StringVal := "sha256:abcd" } }]
    { Name := "shp-image-size", Value := { StringVal := "not-a-number" } }
    NumError.ErrSyntax (by decide) (by decide)).2.trans (by decide)

/-- C5: size round trip. For every `n` in the `int64` range and every result
set whose last `<prefix>-image-size` result carries the decimal rendering of
`n`: the call returns exactly when no `<prefix>-image-vulnerabilities` result of
the set makes the decoder panic, and whenever it returns `Output.Size` is `n`. -/
theorem size_round_trip (p : String) (buildRun : BuildRun) (pre post : List TaskRunResult)
    (r : TaskRunResult) (n : Int) (hlo : -2 ^ 63 ≤ n) (hhi : n < 2 ^ 63)
    (hr : r.Name = generateOutputResultName p imageSizeResult)
    (hv : r.Value.StringVal = FormatInt n)
    (hpost : ∀ x ∈ post, x.Name ≠ generateOutputResultName p imageSizeResult) :
    ((updateBuildRunStatusWithOutputResult p buildRun (pre ++ r :: post)).completion =
        Completion.returned ↔
      ∀ x ∈ pre ++ r :: post, x.Name = generateOutputResultName p imageVulnerabilities →
        getImageVulnerabilitiesResult x ≠ none) ∧
    ((updateBuildRunStatusWithOutputResult p buildRun (pre ++ r :: post)).completion =
        Completion.returned →
      (updateBuildRunStatusWithOutputResult p buildRun
        (pre ++ r :: post)).buildRun.Status.Output.map Output.Size = some n) := by
  refine ⟨update_returned_iff p buildRun _, ?_⟩
  rw [update_eq]
  intro hret
  obtain ⟨o₁, o₂, -, hcase, hloop⟩ := outputResultLoop_split p _ pre post r hret
  have hparse : ParseInt r.Value.StringVal = Except.ok n := by
    rw [hv]; exact ParseInt_FormatInt n hlo hhi
  rw [outputResultCase_size_ok p o₁ r n hr hparse] at hcase
  cases hcase
  simp only [Option.map_some', hloop]
  exact congrArg some
    (outputResultLoop_keeps p Output.Size _ (outputResultCase_keeps_size p) post _ hpost)

/-- Witness of C5: the size `10485760` gives `Output.Size = 10485760`. -/
theorem size_round_trip_witness :
    (updateBuildRunStatusWithOutputResult "shp" {}
        [{ Name := "shp-image-size", Value := { StringVal := "10485760" } }]).buildRun.Status.Output.map
      Output.Size = some 10485760 :=
  (size_round_trip "shp" {} [] []
    { Name := "shp-image-size", Value := { StringVal := "10485760" } } 10485760
    (by decide) (by decide) (by decide) (by decide) (by simp)).2 (by decide)

/-- C6: absent keys leave their field unchanged. From a run whose `Output` is
present, a result set without a result named `<prefix>-image-digest` leaves
`Output.Digest` as it was, one without `<prefix>-image-size` leaves
`Output.Size` as it was, and one without `<prefix>-image-vulnerabilities`
leaves `Output.Vulnerabilities` as it was. -/
theorem absent_key_keeps_field (p : String) (buildRun : BuildRun) (output : Output)
    (rs : List TaskRunResult) (hout : buildRun.Status.Output = some output) :
    ((∀ x ∈ rs, x.Name ≠ generateOutputResultName p imageDigestResult) →
      (updateBuildRunStatusWithOutputResult p buildRun rs).buildRun.Status.Output.map
        Output.Digest = some output.Digest) ∧
    ((∀ x ∈ rs, x.Name ≠ generateOutputResultName p imageSizeResult) →
      (updateBuildRunStatusWithOutputResult p buildRun rs).buildRun.Status.Output.map
        Output.Size = some output.Size) ∧
    ((∀ x ∈ rs, x.Name ≠ generateOutputResultName p imageVulnerabilities) →
      (updateBuildRunStatusWithOutputResult p buildRun rs).buildRun.Status.Output.map
        Output.Vulnerabilities = some output.Vulnerabilities) := by
  rw [update_eq, hout]
  refine ⟨fun h => ?_, fun h => ?_, fun h => ?_⟩
  · exact congrArg some
      (outputResultLoop_keeps p Output.Digest _ (outputResultCase_keeps_digest p) rs _ h)
  · exact congrArg some
      (outputResultLoop_keeps p Output.Size _ (outputResultCase_keeps_size p) rs _ h)
  · exact congrArg some
      (outputResultLoop_keeps p Output.Vulnerabilities _
        (outputResultCase_keeps_vulnerabilities p) rs _ h)

/-- Witness of C6: a previously set vulnerability list survives a result set
that has a digest and a size but no vulnerabilities. -/
theorem absent_key_keeps_field_witness :
    (updateBuildRunStatusWithOutputResult "shp"
        { Status := { Output := some { Vulnerabilities :=
          [{ ID := "cve-1", Severity := VulnerabilitySeverity.High }] } } }
        [{ Name := "shp-image-digest", Value := { StringVal := "sha256:abcd" } },
         { Name := "shp-image-size", Value := { StringVal := "7" } }]).buildRun.Status.Output.map
      Output.Vulnerabilities =
      some [{ ID := "cve-1", Severity := VulnerabilitySeverity.High }] :=
  (absent_key_keeps_field "shp"
    { Status := { Output := some { Vulnerabilities :=
      [{ ID := "cve-1", Severity := VulnerabilitySeverity.High }] } } }
    { Vulnerabilities := [{ ID := "cve-1", Severity := VulnerabilitySeverity.High }] }
    [{ Name := "shp-image-digest", Value := { StringVal := "sha256:abcd" } },
     { Name := "shp-image-size", Value := { StringVal := "7" } }] rfl).2.2 (by decide)

/-- C7: output extraction is idempotent. For every starting run and every
result set, applying the extractor again, with the same result set, to the run
the first call left behind ends as the first call did: same run, same way of
ending. -/
theorem output_extraction_idempotent (p : String) (buildRun : BuildRun)
    (taskRunResult : List TaskRunResult) :
    updateBuildRunStatusWithOutputResult p
        (updateBuildRunStatusWithOutputResult p buildRun taskRunResult).buildRun taskRunResult =
      updateBuildRunStatusWithOutputResult p buildRun taskRunResult := by
  simp only [updateBuildRunStatusWithOutputResult, outputResultLoop_idem]

/-- C8: the digest is copied verbatim. For every result set in which `r` is
the last result named `<prefix>-image-digest`: the call returns exactly when no
`<prefix>-image-vulnerabilities` result of the set makes the decoder panic, and
whenever it returns `Output.Digest` is the string value of `r`, unchanged
whatever that string is (the empty string included). -/
theorem digest_copied_verbatim (p : String) (buildRun : BuildRun)
    (pre post : List TaskRunResult) (r : TaskRunResult)
    (hr : r.Name = generateOutputResultName p imageDigestResult)
    (hpost : ∀ x ∈ post, x.Name ≠ generateOutputResultName p imageDigestResult) :
    ((updateBuildRunStatusWithOutputResult p buildRun (pre ++ r :: post)).completion =
        Completion.returned ↔
      ∀ x ∈ pre ++ r :: post, x.Name = generateOutputResultName p imageVulnerabilities →
        getImageVulnerabilitiesResult x ≠ none) ∧
    ((updateBuildRunStatusWithOutputResult p buildRun (pre ++ r :: post)).completion =
        Completion.returned →
      (updateBuildRunStatusWithOutputResult p buildRun
        (pre ++ r :: post)).buildRun.Status.Output.map Output.Digest =
          some r.Value.StringVal) := by
  refine ⟨update_returned_iff p buildRun _, ?_⟩
  rw [update_eq]
  intro hret
  obtain ⟨o₁, o₂, -, hcase, hloop⟩ := outputResultLoop_split p _ pre post r hret
  rw [outputResultCase_digest p o₁ r hr] at hcase
  cases hcase
  simp only [Option.map_some', hloop]
  exact congrArg some
    (outputResultLoop_keeps p Output.Digest _ (outputResultCase_keeps_digest p) post _ hpost)

/-- Witness of C8: of two digest results the last one wins, and an empty value
is copied as it is. -/
theorem digest_copied_verbatim_witness :
    (updateBuildRunStatusWithOutputResult "shp"
        { Status := { Output := some { Digest := "sha256:old" } } }
        [{ Name := "shp-image-digest", Value := { StringVal := " sha256:ABCD " } },
         { Name := "shp-image-digest", Value := { StringVal := "" } },
         { Name := "shp-image-size", Value := { StringVal := "7" } }]).buildRun.Status.Output.map
      Output.Digest = some "" :=
  (digest_copied_verbatim "shp" { Status := { Output := some { Digest := "sha256:old" } } }
    [{ Name := "shp-image-digest", Value := { StringVal := " sha256:ABCD " } }]
    [{ Name := "shp-image-size", Value := { StringVal := "7" } }]
    { Name := "shp-image-digest", Value := { StringVal := "" } }
    (by decide) (by decide)).2 (by decide)

/-- C9: a present vulnerabilities key overwrites. For every starting run and
every result set in which `r` is the last result named
`<prefix>-image-vulnerabilities`, its value is well formed (the decoder returns
`vulns` on it) and so are the values of the results of that name before it: the
call returns and `Output.Vulnerabilities` is `vulns`, the decoder's result on
`r` alone, whatever the list held before. -/
theorem vulnerabilities_overwritten (p : String) (buildRun : BuildRun)
    (pre post : List TaskRunResult) (r : TaskRunResult) (vulns : List Vulnerability)
    (hr : r.Name = generateOutputResultName p imageVulnerabilities)
    (hv : getImageVulnerabilitiesResult r = some vulns)
    (hpre : ∀ x ∈ pre, x.Name = generateOutputResultName p imageVulnerabilities →
      getImageVulnerabilitiesResult x ≠ none)
    (hpost : ∀ x ∈ post, x.Name ≠ generateOutputResultName p imageVulnerabilities) :
    (updateBuildRunStatusWithOutputResult p buildRun (pre ++ r :: post)).completion =
        Completion.returned ∧
      (updateBuildRunStatusWithOutputResult p buildRun
        (pre ++ r :: post)).buildRun.Status.Output.map Output.Vulnerabilities = some vulns := by
  have hret : (updateBuildRunStatusWithOutputResult p buildRun (pre ++ r :: post)).completion =
      Completion.returned := by
    rw [update_returned_iff]
    intro x hx hname
    rcases List.mem_append.mp hx with hx | hx
    · exact hpre x hx hname
    · rcases List.mem_cons.mp hx with rfl | hx
      · simp [hv]
      · exact absurd hname (hpost x hx)
  refine ⟨hret, ?_⟩
  rw [update_eq] at hret ⊢
  obtain ⟨o₁, o₂, -, hcase, hloop⟩ := outputResultLoop_split p _ pre post r hret
  rw [outputResultCase_vulnerabilities p o₁ r hr, hv] at hcase
  cases hcase
  simp only [Option.map_some', hloop]
  exact congrArg some
    (outputResultLoop_keeps p Output.Vulnerabilities _
      (outputResultCase_keeps_vulnerabilities p) post _ hpost)

/-- Witness of C9: over a list that held `cve-1`, the value `cve-9999:C` leaves
exactly one record, `cve-9999` Critical, and the empty value leaves no record. -/
theorem vulnerabilities_overwritten_witness :
    ((updateBuildRunStatusWithOutputResult "shp"
        { Status := { Output := some { Vulnerabilities :=
          [{ ID := "cve-1", Severity := VulnerabilitySeverity.High }] } } }
        [{ Name := "shp-image-vulnerabilities",
           Value := { StringVal := "cve-9999:C" } }]).buildRun.Status.Output.map
      Output.Vulnerabilities =
      some [{ ID := "cve-9999", Severity := VulnerabilitySeverity.Critical }]) ∧
    ((updateBuildRunStatusWithOutputResult "shp"
        { Status := { Output := some { Vulnerabilities :=
          [{ ID := "cve-1", Severity := VulnerabilitySeverity.High }] } } }
        [{ Name := "shp-image-vulnerabilities",
           Value := { StringVal := "" } }]).buildRun.Status.Output.map
      Output.Vulnerabilities = some []) :=
  ⟨(vulnerabilities_overwritten "shp" _ [] []
      { Name := "shp-image-vulnerabilities", Value := { StringVal := "cve-9999:C" } }
      [{ ID := "cve-9999", Severity := VulnerabilitySeverity.Critical }]
      (by decide) (by decide) (by simp) (by simp)).2,
   (vulnerabilities_overwritten "shp" _ [] []
      { Name := "shp-image-vulnerabilities", Value := { StringVal := "" } } []
      (by decide) (by decide) (by simp) (by simp)).2⟩

/-- C10 as stated fails: from a run whose `Status.Output` is absent, a result set
with none of the three output keys (here one unrelated result) leaves
`Status.Output` present, as a fresh empty output. -/
theorem output_present_without_output_keys :
    (updateBuildRunStatusWithOutputResult "shp" { Status := { Output := none } }
      [{ Name := "shp-source-timestamp", Value := { StringVal := "1" } }]).buildRun.Status.Output =
      some { Digest := "", Size := 0, Vulnerabilities := [] } := by
  decide

/-- C10, amended: the `Output` sub-object is allocated on entry. After every
call `Status.Output` is present; when it was absent before and the result set
holds none of the three output keys, the call returns and the run differs only
in that `Status.Output` is now a fresh empty output. -/
theorem output_allocated_on_entry (p : String) (buildRun : BuildRun)
    (rs : List TaskRunResult) :
    (updateBuildRunStatusWithOutputResult p buildRun rs).buildRun.Status.Output ≠ none ∧
    (buildRun.Status.Output = none →
      (∀ x ∈ rs, x.Name ≠ generateOutputResultName p imageDigestResult ∧
        x.Name ≠ generateOutputResultName p imageSizeResult ∧
        x.Name ≠ generateOutputResultName p imageVulnerabilities) →
      updateBuildRunStatusWithOutputResult p buildRun rs =
        { buildRun := { buildRun with Status := { buildRun.Status with Output := some {} } },
          completion := Completion.returned }) := by
  refine ⟨by simp [update_eq], fun hnone hrs => ?_⟩
  have hloop : ∀ o : Output, outputResultLoop p o rs = (o, Completion.returned) := by
    intro o
    induction rs with
    | nil => rfl
    | cons r rs ih =>
      have hr := hrs r (by simp)
      have hcase : outputResultCase p o r = some o := by
        simp [outputResultCase, hr.1, hr.2.1, hr.2.2]
      simp only [outputResultLoop, hcase]
      exact ih (fun x hx => hrs x (by simp [hx]))
  rw [update_eq, hnone, hloop]
  rfl

/-- Witness of C10, amended: an absent output and an empty result set. -/
theorem output_allocated_on_entry_witness :
    updateBuildRunStatusWithOutputResult "shp" { Status := { Output := none } } [] =
      { buildRun := { Status := { Output := some {} } }, completion := Completion.returned } :=
  (output_allocated_on_entry "shp" { Status := { Output := none } } []).2 rfl (by simp)

/-! ## Output result extractor: composition and frame -/

theorem outputResultCase_unnamed (p : String) (o : Output) (r : TaskRunResult)
    (hd : r.Name ≠ generateOutputResultName p imageDigestResult)
    (hz : r.Name ≠ generateOutputResultName p imageSizeResult)
    (hv : r.Name ≠ generateOutputResultName p imageVulnerabilities) :
    outputResultCase p o r = some o := by
  simp [outputResultCase, hd, hz, hv]

/-- A field is kept by a scan in which every case that completes keeps it. -/
theorem outputResultLoop_keeps_of {α : Type} (p : String) (f : Output → α)
    (rs : List TaskRunResult)
    (hcase : ∀ x ∈ rs, ∀ o o' : Output, outputResultCase p o x = some o' → f o' = f o)
    (o : Output) : f (outputResultLoop p o rs).1 = f o := by
  induction rs generalizing o with
  | nil => rfl
  | cons r rs ih =>
    simp only [outputResultLoop]
    cases hc : outputResultCase p o r with
    | none => rfl
    | some o' =>
      exact (ih (fun x hx => hcase x (by simp [hx])) o').trans (hcase r (by simp) o o' hc)

/-- After a scan that returned, the scan of what follows starts from the output
it left. -/
theorem outputResultLoop_after (p : String) (o : Output) (pre rest : List TaskRunResult)
    (h : (outputResultLoop p o pre).2 = Completion.returned) :
    outputResultLoop p o (pre ++ rest) =
      outputResultLoop p (outputResultLoop p o pre).1 rest := by
  rw [outputResultLoop_append]
  match hpre : outputResultLoop p o pre, h with
  | (o₁, Completion.returned), _ => rfl

/-- C17: extraction is a left fold over the result set, so later results win.
For every starting run and all result lists `r1` and `r2`, the call on `r1 ++
r2` ends exactly as the call on `r1` followed, once it has returned, by the call
on `r2` applied to the run it left; when the call on `r1` panics, so does the
call on `r1 ++ r2`, with the same run. And the last valid occurrence of a key
determines its field: when the call on the results before `r` returns, then
`Output.Digest` is the value of `r` if `r` is the last digest result,
`Output.Size` is the number `r` parses to if no later size result parses, and
`Output.Vulnerabilities` is what `r` decodes to if no later vulnerabilities
result is well formed, whatever the field held and whatever earlier results
wrote. -/
theorem extraction_left_fold (p : String) (buildRun : BuildRun) :
    (∀ r1 r2 : List TaskRunResult,
      updateBuildRunStatusWithOutputResult p buildRun (r1 ++ r2) =
        match updateBuildRunStatusWithOutputResult p buildRun r1 with
        | { buildRun := buildRun', completion := Completion.returned } =>
          updateBuildRunStatusWithOutputResult p buildRun' r2
        | { buildRun := buildRun', completion := Completion.panicked } =>
          { buildRun := buildRun', completion := Completion.panicked }) ∧
    (∀ (pre post : List TaskRunResult) (r : TaskRunResult),
      (updateBuildRunStatusWithOutputResult p buildRun pre).completion = Completion.returned →
      r.Name = generateOutputResultName p imageDigestResult →
      (∀ x ∈ post, x.Name ≠ generateOutputResultName p imageDigestResult) →
      (updateBuildRunStatusWithOutputResult p buildRun
        (pre ++ r :: post)).buildRun.Status.Output.map Output.Digest =
          some r.Value.StringVal) ∧
    (∀ (pre post : List TaskRunResult) (r : TaskRunResult) (n : Int),
      (updateBuildRunStatusWithOutputResult p buildRun pre).completion = Completion.returned →
      r.Name = generateOutputResultName p imageSizeResult →
      ParseInt r.Value.StringVal = Except.ok n →
      (∀ x ∈ post, x.Name = generateOutputResultName p imageSizeResult →
        ∃ e, ParseInt x.Value.StringVal = Except.error e) →
      (updateBuildRunStatusWithOutputResult p buildRun
        (pre ++ r :: post)).buildRun.Status.Output.map Output.Size = some n) ∧
    (∀ (pre post : List TaskRunResult) (r : TaskRunResult) (vulns : List Vulnerability),
      (updateBuildRunStatusWithOutputResult p buildRun pre).completion = Completion.returned →
      r.Name = generateOutputResultName p imageVulnerabilities →
      getImageVulnerabilitiesResult r = some vulns →
      (∀ x ∈ post, x.Name = generateOutputResultName p imageVulnerabilities →
        getImageVulnerabilitiesResult x = none) →
      (updateBuildRunStatusWithOutputResult p buildRun
        (pre ++ r :: post)).buildRun.Status.Output.map Output.Vulnerabilities =
          some vulns) := by
  refine ⟨fun r1 r2 => ?_, fun pre post r hpre hr hpost => ?_,
    fun pre post r n hpre hr hn hpost => ?_, fun pre post r vulns hpre hr hv hpost => ?_⟩
  · rw [update_eq p buildRun (r1 ++ r2), update_eq p buildRun r1, outputResultLoop_append]
    match outputResultLoop p (buildRun.Status.Output.getD {}) r1 with
    | (o', Completion.returned) => simp only [update_eq, Option.getD_some]
    | (o', Completion.panicked) => rfl
  · rw [update_eq] at hpre ⊢
    simp only [Option.map_some', outputResultLoop_after p _ pre (r :: post) hpre,
      outputResultLoop, outputResultCase_digest p _ r hr]
    exact congrArg some (outputResultLoop_keeps_of p Output.Digest post
      (fun x hx o o' hc => outputResultCase_keeps_digest p o o' x (hpost x hx) hc) _)
  · rw [update_eq] at hpre ⊢
    simp only [Option.map_some', outputResultLoop_after p _ pre (r :: post) hpre,
      outputResultLoop, outputResultCase_size_ok p _ r n hr hn]
    refine congrArg some (outputResultLoop_keeps_of p Output.Size post
      (fun x hx o o' hc => ?_) _)
    by_cases hx' : x.Name = generateOutputResultName p imageSizeResult
    · obtain ⟨e, he⟩ := hpost x hx hx'
      rw [outputResultCase_size_error p o x e hx' he] at hc
      cases hc
      rfl
    · exact outputResultCase_keeps_size p o o' x hx' hc
  · rw [update_eq] at hpre ⊢
    simp only [Option.map_some', outputResultLoop_after p _ pre (r :: post) hpre,
      outputResultLoop, outputResultCase_vulnerabilities p _ r hr, hv]
    refine congrArg some (outputResultLoop_keeps_of p Output.Vulnerabilities post
      (fun x hx o o' hc => ?_) _)
    by_cases hx' : x.Name = generateOutputResultName p imageVulnerabilities
    · rw [outputResultCase_vulnerabilities p o x hx', hpost x hx hx'] at hc
      cases hc
    · exact outputResultCase_keeps_vulnerabilities p o o' x hx' hc

/-- Witness of C17: of two digest results the later one wins, and the size 7
stands although a later size result does not parse. -/
theorem extraction_left_fold_witness :
    ((updateBuildRunStatusWithOutputResult "shp"
        { Status := { Output := some { Digest := "sha256:old", Size := 42 } } }
        [{ Name := "shp-image-digest", Value := { StringVal := "sha256:first" } },
         { Name := "shp-image-size", Value := { StringVal := "7" } },
         { Name := "shp-image-digest", Value := { StringVal := "sha256:last" } },
         { Name := "shp-image-size", Value := { StringVal := "oops" } }]).buildRun.Status.Output.map
      Output.Digest = some "sha256:last") ∧
    ((updateBuildRunStatusWithOutputResult "shp"
        { Status := { Output := some { Digest := "sha256:old", Size := 42 } } }
        [{ Name := "shp-image-digest", Value := { StringVal := "sha256:first" } },
         { Name := "shp-image-size", Value := { StringVal := "7" } },
         { Name := "shp-image-digest", Value := { StringVal := "sha256:last" } },
         { Name := "shp-image-size", Value := { StringVal := "oops" } }]).buildRun.Status.Output.map
      Output.Size = some 7) :=
  ⟨(extraction_left_fold "shp"
      { Status := { Output := some { Digest := "sha256:old", Size := 42 } } }).2.1
      [{ Name := "shp-image-digest", Value := { StringVal := "sha256:first" } },
       { Name := "shp-image-size", Value := { StringVal := "7" } }]
      [{ Name := "shp-image-size", Value := { StringVal := "oops" } }]
      { Name := "shp-image-digest", Value := { StringVal := "sha256:last" } }
      (by decide) (by decide) (by decide),
    (extraction_left_fold "shp"
      { Status := { Output := some { Digest := "sha256:old", Size := 42 } } }).2.2.1
      [{ Name := "shp-image-digest", Value := { StringVal := "sha256:first" } }]
      [{ Name := "shp-image-digest", Value := { StringVal := "sha256:last" } },
       { Name := "shp-image-size", Value := { StringVal := "oops" } }]
      { Name := "shp-image-size", Value := { StringVal := "7" } } 7
      (by decide) (by decide) (by decide)
      (by
        intro x hx hname
        simp only [List.mem_cons, List.mem_singleton, List.not_mem_nil, or_false] at hx
        rcases hx with rfl | rfl
        · exact absurd hname (by decide)
        · exact ⟨NumError.ErrSyntax, by decide⟩)⟩

theorem outputResultLoop_filter (p : String) (o : Output) (rs : List TaskRunResult) :
    outputResultLoop p o rs =
      outputResultLoop p o (rs.filter fun r =>
        decide (r.Name = generateOutputResultName p imageDigestResult ∨
          r.Name = generateOutputResultName p imageSizeResult ∨
          r.Name = generateOutputResultName p imageVulnerabilities)) := by
  induction rs generalizing o with
  | nil => rfl
  | cons r rs ih =>
    by_cases h : r.Name = generateOutputResultName p imageDigestResult ∨
        r.Name = generateOutputResultName p imageSizeResult ∨
        r.Name = generateOutputResultName p imageVulnerabilities
    · simp only [List.filter_cons, h, decide_True, if_true, outputResultLoop]
      cases outputResultCase p o r with
      | none => rfl
      | some o' => exact ih o'
    · have hn := h
      simp only [not_or] at hn
      simp only [List.filter_cons, h, decide_False, Bool.false_eq_true, if_false,
        outputResultLoop, outputResultCase_unnamed p o r hn.1 hn.2.1 hn.2.2]
      exact ih o

/-- C18: results outside the output namespace have no effect. For every starting
run and every result set, the call ends exactly as it does on the sub-list of
the results whose name is one of `<prefix>-image-digest`, `<prefix>-image-size`,
`<prefix>-image-vulnerabilities`; names are compared as whole strings, and none
of the three logical names without the prefix is one of these names. -/
theorem results_outside_namespace_ignored (p : String) (buildRun : BuildRun)
    (rs : List TaskRunResult) :
    updateBuildRunStatusWithOutputResult p buildRun rs =
        updateBuildRunStatusWithOutputResult p buildRun (rs.filter fun r =>
          decide (r.Name = generateOutputResultName p imageDigestResult ∨
            r.Name = generateOutputResultName p imageSizeResult ∨
            r.Name = generateOutputResultName p imageVulnerabilities)) ∧
      ∀ bare ∈ [imageDigestResult, imageSizeResult, imageVulnerabilities],
        bare ≠ generateOutputResultName p imageDigestResult ∧
        bare ≠ generateOutputResultName p imageSizeResult ∧
        bare ≠ generateOutputResultName p imageVulnerabilities := by
  refine ⟨?_, ?_⟩
  · simp only [updateBuildRunStatusWithOutputResult]
    rw [← outputResultLoop_filter]
  · intro bare hb
    have hsuffix : ∀ a : String, bare = generateOutputResultName p a →
        ('-' :: a.data) <:+ bare.data := by
      intro a h
      refine ⟨p.data, ?_⟩
      rw [h]
      simp [generateOutputResultName, String.data_append]
    simp only [List.mem_cons, List.mem_singleton, List.not_mem_nil, or_false] at hb
    rcases hb with rfl | rfl | rfl <;>
      exact ⟨fun h => absurd (hsuffix _ h) (by decide),
        fun h => absurd (hsuffix _ h) (by decide),
        fun h => absurd (hsuffix _ h) (by decide)⟩

/-! ## Status merge driver: properties -/

/-- C11: the merge driver applies the extractors in a fixed order. For every
run, every result set and every behaviour of the source extractor: when the
source extractor returns, leaving the run `buildRun'`, the driver ends exactly
as the output extractor does on `buildRun'` with the same result set; when the
source extractor panics, the driver ends there and the output extractor is not
applied. -/
theorem merge_driver_source_then_output (p : String)
    (updateBuildRunStatusWithSourceResult : BuildRun → List TaskRunResult → Outcome)
    (buildRun : BuildRun) (taskRunResult : List TaskRunResult) :
    (∀ buildRun' : BuildRun,
      updateBuildRunStatusWithSourceResult buildRun taskRunResult =
          { buildRun := buildRun', completion := Completion.returned } →
        UpdateBuildRunUsingTaskResults p updateBuildRunStatusWithSourceResult buildRun
            taskRunResult =
          updateBuildRunStatusWithOutputResult p buildRun' taskRunResult) ∧
    (∀ buildRun' : BuildRun,
      updateBuildRunStatusWithSourceResult buildRun taskRunResult =
          { buildRun := buildRun', completion := Completion.panicked } →
        UpdateBuildRunUsingTaskResults p updateBuildRunStatusWithSourceResult buildRun
            taskRunResult =
          { buildRun := buildRun', completion := Completion.panicked }) := by
  constructor <;> intro buildRun' h <;> simp only [UpdateBuildRunUsingTaskResults, h]

/-- Witness of C11: a source extractor that leaves the digest `sha256:source`
behind, and a result set with the digest `sha256:abcd`: the output extractor
runs second, on the run the source extractor left, so the digest ends as
`sha256:abcd`. -/
theorem merge_driver_source_then_output_witness :
    UpdateBuildRunUsingTaskResults "shp"
        (fun buildRun _ =>
          { buildRun := { buildRun with Status := { buildRun.Status with
              Output := some { Digest := "sha256:source", Size := 7 } } },
            completion := Completion.returned })
        {} [{ Name := "shp-image-digest", Value := { StringVal := "sha256:abcd" } }] =
      { buildRun := { Status := { Output := some { Digest := "sha256:abcd", Size := 7 } } },
        completion := Completion.returned } :=
  ((merge_driver_source_then_output "shp"
      (fun buildRun _ =>
        { buildRun := { buildRun with Status := { buildRun.Status with
            Output := some { Digest := "sha256:source", Size := 7 } } },
          completion := Completion.returned })
      {} [{ Name := "shp-image-digest", Value := { StringVal := "sha256:abcd" } }]).1
    { Status := { Output := some { Digest := "sha256:source", Size := 7 } } } rfl).trans
    (by decide)

/-! ## Vulnerability decoder: where it panics -/

theorem splitRunes_of_mem (sep : Char) (a : List Char) (h : sep ∈ a) :
    ∃ x y rest, splitRunes sep a = x :: y :: rest := by
  induction a with
  | nil => simp at h
  | cons c cs ih =>
    by_cases hc : c = sep
    · obtain ⟨y, rest, hy⟩ := List.exists_cons_of_ne_nil (splitRunes_ne_nil sep cs)
      exact ⟨[], y, rest, by simp [splitRunes, hc, hy]⟩
    · have hcs : sep ∈ cs := by
        rcases List.mem_cons.mp h with h | h
        · exact absurd h.symm hc
        · exact h
      obtain ⟨x, y, rest, hx⟩ := ih hcs
      exact ⟨c :: x, y, rest, by simp [splitRunes, hc, hx]⟩

theorem vulnerabilitiesLoop_none_iff (entries : List String) (vulns : List Vulnerability) :
    vulnerabilitiesLoop vulns entries = none ↔ ∃ entry ∈ entries, ':' ∉ entry.data := by
  induction entries generalizing vulns with
  | nil => simp [vulnerabilitiesLoop]
  | cons e es ih =>
    by_cases he : ':' ∈ e.data
    · obtain ⟨x, y, rest, hx⟩ := splitRunes_of_mem ':' e.data he
      simp only [vulnerabilitiesLoop, Split, hx, List.map_cons, ih, List.mem_cons,
        exists_eq_or_imp, he, not_true_eq_false, false_or]
    · simp [vulnerabilitiesLoop, Split, splitRunes_of_not_mem ':' e.data he, he]

/-- C15: the decoder panics exactly on a missing delimiter. For every non-empty
input string, the call panics (the index `vuln[1]` is out of range) if and only
if one of the pieces between the commas, empty pieces included, contains no
`:`; when every piece contains a `:` it returns a slice. -/
theorem decoder_panics_iff_missing_separator (result : TaskRunResult)
    (h : result.Value.StringVal.length ≠ 0) :
    (getImageVulnerabilitiesResult result = none ↔
      ∃ entry ∈ Split result.Value.StringVal ',', ':' ∉ entry.data) ∧
    ((∀ entry ∈ Split result.Value.StringVal ',', ':' ∈ entry.data) →
      ∃ vulns, getImageVulnerabilitiesResult result = some vulns) := by
  have hiff : getImageVulnerabilitiesResult result = none ↔
      ∃ entry ∈ Split result.Value.StringVal ',', ':' ∉ entry.data := by
    simp only [getImageVulnerabilitiesResult, h, if_false]
    exact vulnerabilitiesLoop_none_iff _ _
  refine ⟨hiff, fun hall => ?_⟩
  apply Option.ne_none_iff_exists'.mp
  intro hnone
  obtain ⟨entry, hmem, hno⟩ := hiff.mp hnone
  exact hno (hall entry hmem)

/-- Witness of C15: a trailing comma leaves an empty last piece, which has no
`:`, and the call panics although `cve-1:H` is well formed. -/
theorem decoder_panics_iff_missing_separator_witness :
    getImageVulnerabilitiesResult
        { Name := "shp-image-vulnerabilities", Value := { StringVal := "cve-1:H," } } = none :=
  (decoder_panics_iff_missing_separator
    { Name := "shp-image-vulnerabilities", Value := { StringVal := "cve-1:H," } }
    (by decide)).1.mpr ⟨"", by decide, by decide⟩

/-! ## Vulnerability decoder: trailing text -/

theorem Split_intercalate (t : String) (ts : List String)
    (h : ∀ x ∈ t :: ts, ',' ∉ x.data) :
    Split (",".intercalate (t :: ts)) ',' = t :: ts := by
  have hdata : (",".intercalate (t :: ts)).data =
      t.data ++ ((ts.map fun x => x.data).map fun x => ',' :: x).flatten := by
    simp [String.intercalate, intercalate_go_data, List.map_map, Function.comp_def]
  unfold Split
  rw [hdata, splitRunes_joined ',' _ _ (h t (by simp))]
  · simp [List.map_map, Function.comp_def]
  · intro x hx
    obtain ⟨y, hy, rfl⟩ := List.mem_map.mp hx
    exact h y (by simp [hy])

theorem entryTextWithRest_data (e : String × String × Option String) :
    ∃ tail : List Char, (entryTextWithRest e).data = e.1.data ++ ':' :: (e.2.1.data ++ tail) ∧
      (tail = [] ∨ ∃ rest, e.2.2 = some rest ∧ tail = ':' :: rest.data) := by
  obtain ⟨id, code, rest⟩ := e
  cases rest with
  | none => exact ⟨[], by simp [entryTextWithRest, String.data_append], Or.inl rfl⟩
  | some rest =>
    exact ⟨':' :: rest.data, by simp [entryTextWithRest, String.data_append],
      Or.inr ⟨rest, rfl, rfl⟩⟩

theorem Split_entryTextWithRest (e : String × String × Option String)
    (h1 : ':' ∉ e.1.data) (h2 : ':' ∉ e.2.1.data) :
    ∃ more, Split (entryTextWithRest e) ':' = e.1 :: e.2.1 :: more := by
  obtain ⟨tail, hdata, htail⟩ := entryTextWithRest_data e
  unfold Split
  rw [hdata, splitRunes_append ':' _ _ h1]
  rcases htail with rfl | ⟨rest, -, rfl⟩
  · rw [List.append_nil, splitRunes_of_not_mem ':' _ h2]
    exact ⟨[], rfl⟩
  · rw [splitRunes_append ':' _ _ h2]
    exact ⟨(splitRunes ':' rest.data).map String.mk, rfl⟩

theorem vulnerabilitiesLoop_entriesWithRest (es : List (String × String × Option String))
    (vulns : List Vulnerability)
    (h : ∀ x ∈ es, ':' ∉ x.1.data ∧ ':' ∉ x.2.1.data) :
    vulnerabilitiesLoop vulns (es.map entryTextWithRest) =
      some (vulns ++ es.map fun e => { ID := e.1, Severity := getSeverity e.2.1 }) := by
  induction es generalizing vulns with
  | nil => simp [vulnerabilitiesLoop]
  | cons e es ih =>
    have he := h e (by simp)
    have hes : ∀ x ∈ es, ':' ∉ x.1.data ∧ ':' ∉ x.2.1.data := fun x hx => h x (by simp [hx])
    obtain ⟨more, hsplit⟩ := Split_entryTextWithRest e he.1 he.2
    simp [vulnerabilitiesLoop, hsplit, ih _ hes]

/-- C19: text after a second `:` is discarded. For every list of entries
`id:code` or `id:code:rest`, joined with `,`, in which no id and no code
contains `:` or `,` and no rest contains `,` (a rest may contain `:`), the
decoder returns one record per entry, `ID = id` and `Severity = getSeverity
code`: the record of `id:code`, whatever the rest. -/
theorem trailing_text_discarded (name : String)
    (entries : List (String × String × Option String))
    (h : ∀ e ∈ entries, (',' ∉ e.1.data ∧ ':' ∉ e.1.data) ∧
      (',' ∉ e.2.1.data ∧ ':' ∉ e.2.1.data) ∧ ∀ rest, e.2.2 = some rest → ',' ∉ rest.data) :
    getImageVulnerabilitiesResult
        { Name := name,
          Value := { StringVal := ",".intercalate (entries.map entryTextWithRest) } } =
      some (entries.map fun e => { ID := e.1, Severity := getSeverity e.2.1 }) := by
  cases entries with
  | nil => rfl
  | cons e es =>
    have hcomma : ∀ x ∈ (e :: es).map entryTextWithRest, ',' ∉ x.data := by
      intro x hx
      obtain ⟨y, hy, rfl⟩ := List.mem_map.mp hx
      obtain ⟨⟨h1, -⟩, ⟨h2, -⟩, h3⟩ := h y hy
      obtain ⟨tail, hdata, htail⟩ := entryTextWithRest_data y
      rw [hdata]
      rcases htail with rfl | ⟨rest, hrest, rfl⟩
      · simp [h1, h2]
      · simp [h1, h2, h3 rest hrest]
    have hsplit := Split_intercalate (entryTextWithRest e) (es.map entryTextWithRest) hcomma
    have hloop := vulnerabilitiesLoop_entriesWithRest (e :: es) []
      (fun x hx => ⟨(h x hx).1.2, (h x hx).2.1.2⟩)
    have hlen : (",".intercalate ((e :: es).map entryTextWithRest)).length ≠ 0 := by
      have : (",".intercalate ((e :: es).map entryTextWithRest)).data ≠ [] := by
        show (String.intercalate.go (entryTextWithRest e) ","
          (es.map entryTextWithRest)).data ≠ []
        obtain ⟨tail, hdata, -⟩ := entryTextWithRest_data e
        rw [intercalate_go_data, hdata]
        simp
      exact fun hl => this (List.length_eq_zero.mp hl)
    unfold getImageVulnerabilitiesResult
    simp only [hlen, if_false]
    rw [List.map_cons, hsplit, ← List.map_cons, hloop]
    simp

/-- Witness of C19: `cve-1:H:extra` gives the record of `cve-1:H`, and the
identifier `urn:cve-2` followed by `:C` is cut at its first `:`, the severity
being read from `cve-2`. -/
theorem trailing_text_discarded_witness :
    getImageVulnerabilitiesResult
        { Name := "shp-image-vulnerabilities",
          Value := { StringVal := "cve-1:H:extra,urn:cve-2:C" } } =
      some [{ ID := "cve-1", Severity := VulnerabilitySeverity.High },
            { ID := "urn", Severity := VulnerabilitySeverity.Unknown }] :=
  trailing_text_discarded "shp-image-vulnerabilities"
    [("cve-1", "H", some "extra"), ("urn", "cve-2", some "C")] (by decide)

/-! ## Size parsing: the 64-bit bound -/

theorem digitsValue_nil (acc : Nat) : digitsValue acc [] = acc := rfl

theorem digitsValue_cons (acc : Nat) (c : Char) (cs : List Char) :
    digitsValue acc (c :: cs) = digitsValue (acc * 10 + (c.toNat - '0'.toNat)) cs := rfl

theorem le_digitsValue (ds : List Char) (acc : Nat) : acc ≤ digitsValue acc ds := by
  induction ds generalizing acc with
  | nil => exact Nat.le_refl _
  | cons c cs ih =>
    rw [digitsValue_cons]
    exact Nat.le_trans
      (Nat.le_trans (Nat.le_mul_of_pos_right acc (by norm_num)) (Nat.le_add_right _ _))
      (ih (acc * 10 + (c.toNat - '0'.toNat)))

/-- On a run of digits the loop of `ParseUint` returns the number the digits
denote when it fits 64 bits, and a range error otherwise. -/
theorem parseUintLoop_digits (ds : List Char) (acc : Nat)
    (hds : ∀ c ∈ ds, '0' ≤ c ∧ c ≤ '9') (hacc : acc < 2 ^ 64) :
    parseUintLoop acc ds =
      if digitsValue acc ds < 2 ^ 64 then Except.ok (digitsValue acc ds)
      else Except.error NumError.ErrRange := by
  induction ds generalizing acc with
  | nil => simp only [parseUintLoop, digitsValue_nil, hacc, if_true]
  | cons c cs ih =>
    have hc := hds c (by simp)
    have hcs : ∀ x ∈ cs, '0' ≤ x ∧ x ≤ '9' := fun x hx => hds x (by simp [hx])
    have hd : c.toNat - '0'.toNat ≤ 9 := by
      have h9 : c.toNat ≤ 57 := Char.le_def.mp hc.2
      have h0 : ('0' : Char).toNat = 48 := rfl
      omega
    have hge := le_digitsValue cs (acc * 10 + (c.toNat - '0'.toNat))
    simp only [parseUintLoop, hc, and_self, if_true, digitsValue_cons]
    by_cases h1 : acc ≥ maxUint64 / 10 + 1
    · have : ¬ digitsValue (acc * 10 + (c.toNat - '0'.toNat)) cs < 2 ^ 64 := by
        unfold maxUint64 at h1; omega
      simp only [h1, if_true, this, if_false]
    · have hm : acc * 10 % 2 ^ 64 = acc * 10 := by
        unfold maxUint64 at h1; omega
      simp only [h1, if_false, hm]
      by_cases h2 : acc * 10 + (c.toNat - '0'.toNat) < 2 ^ 64
      · have hn1 : (acc * 10 + (c.toNat - '0'.toNat)) % 2 ^ 64 =
            acc * 10 + (c.toNat - '0'.toNat) := Nat.mod_eq_of_lt h2
        have hno : ¬ (acc * 10 + (c.toNat - '0'.toNat) < acc * 10 ∨
            acc * 10 + (c.toNat - '0'.toNat) > maxUint64) := by
          unfold maxUint64; omega
        simp only [hn1, hno, if_false]
        exact ih _ hcs h2
      · have hwrap : (acc * 10 + (c.toNat - '0'.toNat)) % 2 ^ 64 < acc * 10 := by
          unfold maxUint64 at h1; omega
        have : ¬ digitsValue (acc * 10 + (c.toNat - '0'.toNat)) cs < 2 ^ 64 := by omega
        simp only [hwrap, true_or, if_true, this, if_false]

theorem isDecimalDigits_iff (ds : List Char) :
    isDecimalDigits ds = true ↔ ds ≠ [] ∧ ∀ c ∈ ds, '0' ≤ c ∧ c ≤ '9' := by
  cases ds <;> simp [isDecimalDigits]

theorem ParseUint_digits (ds : List Char) (h : isDecimalDigits ds = true) :
    (digitsValue 0 ds < 2 ^ 64 ∧ ParseUint ds = Except.ok (digitsValue 0 ds)) ∨
      ParseUint ds = Except.error NumError.ErrRange := by
  obtain ⟨hne, hds⟩ := (isDecimalDigits_iff ds).mp h
  cases ds with
  | nil => exact absurd rfl hne
  | cons c cs =>
    have hloop := parseUintLoop_digits (c :: cs) 0 hds (by norm_num)
    by_cases hfit : digitsValue 0 (c :: cs) < 2 ^ 64
    · rw [if_pos hfit] at hloop
      exact Or.inl ⟨hfit, hloop⟩
    · rw [if_neg hfit] at hloop
      exact Or.inr hloop

/-- The signed range check of `ParseInt` on what `ParseUint` gave for the
digits. -/
theorem ParseInt_of_ParseUint (s : String) (c : Char) (cs : List Char) (hs : s.data = c :: cs) :
    ParseInt s =
      match ParseUint (if c = '+' ∨ c = '-' then cs else c :: cs) with
      | Except.error e => Except.error e
      | Except.ok un =>
        if decide (c = '-') = false ∧ un ≥ 2 ^ 63 then Except.error NumError.ErrRange
        else if decide (c = '-') = true ∧ un > 2 ^ 63 then Except.error NumError.ErrRange
        else if decide (c = '-') = true then Except.ok (-(un : Int))
        else Except.ok (un : Int) := by
  unfold ParseInt
  rw [hs]

/-- `ParseInt` rejects, with a range error, every decimal literal whose value is
outside the `int64` range. -/
theorem ParseInt_out_of_range (s : String) (v : Int) (hlit : literalValue s = some v)
    (hout : v < -2 ^ 63 ∨ 2 ^ 63 ≤ v) : ParseInt s = Except.error NumError.ErrRange := by
  unfold literalValue at hlit
  match hs : s.data, hlit with
  | [], hlit => simp at hlit
  | c :: cs, hlit =>
    rw [ParseInt_of_ParseUint s c cs hs]
    simp only at hlit
    by_cases hminus : c = '-'
    · simp only [hminus, if_true] at hlit
      by_cases hd : isDecimalDigits cs = true
      · simp only [hd, if_true, Option.some.injEq] at hlit
        have hU : digitsValue 0 cs > 2 ^ 63 := by omega
        simp only [hminus, or_true, if_true, decide_True]
        rcases ParseUint_digits cs hd with ⟨-, hp⟩ | hp
        · rw [hp]
          simp only [Bool.true_eq_false, false_and, if_false, true_and, hU, if_true]
        · rw [hp]
      · simp [hd] at hlit
    · simp only [hminus, if_false] at hlit
      by_cases hplus : c = '+'
      · simp only [hplus, if_true] at hlit
        by_cases hd : isDecimalDigits cs = true
        · simp only [hd, if_true, Option.some.injEq] at hlit
          have hU : digitsValue 0 cs ≥ 2 ^ 63 := by omega
          simp only [hplus, true_or, if_true]
          rcases ParseUint_digits cs hd with ⟨-, hp⟩ | hp
          · rw [hp]
            have hdec : decide (('+' : Char) = '-') = false := by decide
            simp only [hdec, true_and, hU, if_true]
          · rw [hp]
        · simp [hd] at hlit
      · simp only [hplus, if_false] at hlit
        by_cases hd : isDecimalDigits (c :: cs) = true
        · simp only [hd, if_true, Option.some.injEq] at hlit
          have hU : digitsValue 0 (c :: cs) ≥ 2 ^ 63 := by omega
          simp only [hplus, hminus, or_self, if_false]
          rcases ParseUint_digits (c :: cs) hd with ⟨-, hp⟩ | hp
          · rw [hp]
            simp only [decide_False, true_and, hU, if_true]
          · rw [hp]
        · simp [hd] at hlit

/-- A result whose case of the switch leaves every output as it is can be
dropped from the result set. -/
theorem update_skip (p : String) (buildRun : BuildRun) (pre post : List TaskRunResult)
    (r : TaskRunResult) (hcase : ∀ o : Output, outputResultCase p o r = some o) :
    updateBuildRunStatusWithOutputResult p buildRun (pre ++ r :: post) =
      updateBuildRunStatusWithOutputResult p buildRun (pre ++ post) := by
  have hloop : ∀ o : Output, outputResultLoop p o (pre ++ r :: post) =
      outputResultLoop p o (pre ++ post) := by
    intro o
    rw [outputResultLoop_append, outputResultLoop_append p o pre post]
    match outputResultLoop p o pre with
    | (o₁, Completion.returned) => simp only [outputResultLoop, hcase o₁]
    | (o₁, Completion.panicked) => rfl
  simp only [updateBuildRunStatusWithOutputResult, hloop]

/-- C16: the size is bounded to signed 64 bits. For every decimal integer
literal (optional sign, then digits) whose value is below `-2^63` or above
`2^63 - 1`, `ParseInt` fails with a range error; a result named
`<prefix>-image-size` that carries it leaves the output as it was, and the call
ends exactly as on the result set without that result, so `Output.Size` is not
set from it, neither wrapped around nor saturated. -/
theorem size_out_of_range_rejected (p : String) (buildRun : BuildRun)
    (pre post : List TaskRunResult) (r : TaskRunResult) (v : Int)
    (hr : r.Name = generateOutputResultName p imageSizeResult)
    (hlit : literalValue r.Value.StringVal = some v)
    (hout : v < -2 ^ 63 ∨ 2 ^ 63 ≤ v) :
    ParseInt r.Value.StringVal = Except.error NumError.ErrRange ∧
      (∀ o : Output, outputResultCase p o r = some o) ∧
      updateBuildRunStatusWithOutputResult p buildRun (pre ++ r :: post) =
        updateBuildRunStatusWithOutputResult p buildRun (pre ++ post) := by
  have hparse := ParseInt_out_of_range r.Value.StringVal v hlit hout
  have hcase : ∀ o : Output, outputResultCase p o r = some o :=
    fun o => outputResultCase_size_error p o r _ hr hparse
  exact ⟨hparse, hcase, update_skip p buildRun pre post r hcase⟩

/-- Witness of C16: from a run whose size is 42, the size `9223372036854775808`
(that is `2^63`) leaves the size at 42. -/
theorem size_out_of_range_rejected_witness :
    updateBuildRunStatusWithOutputResult "shp"
        { Status := { Output := some { Size := 42 } } }
        [{ Name := "shp-image-size", Value := { StringVal := "9223372036854775808" } }] =
      { buildRun := { Status := { Output := some { Size := 42 } } },
        completion := Completion.returned } :=
  (size_out_of_range_rejected "shp" { Status := { Output := some { Size := 42 } } } [] []
    { Name := "shp-image-size", Value := { StringVal := "9223372036854775808" } }
    9223372036854775808 (by decide) (by decide) (by decide)).2.2.trans (by decide)

end Resources

/-! ## The test double of the status writer: properties -/

namespace Fakes

namespace FakeStatusWriter

variable {T : ClientTypes}

theorem Create_fst (fake : FakeStatusWriter T) (arg1 : T.Context) (arg2 arg3 : T.Object)
    (arg4 : List T.SubResourceCreateOption) :
    (fake.Create arg1 arg2 arg3 arg4).1 =
      ({ fake with createArgsForCall :=
          fake.createArgsForCall ++ [{ arg1 := arg1, arg2 := arg2, arg3 := arg3, arg4 := arg4 }]
        } : FakeStatusWriter T).recordInvocation "Create"
        (Invocation.Create { arg1 := arg1, arg2 := arg2, arg3 := arg3, arg4 := arg4 }) := by
  unfold Create
  cases fake.CreateStub with
  | some f => rfl
  | none => cases fake.createReturnsOnCall (fake.createArgsForCall.length : Int) <;> rfl

theorem Create_snd (fake : FakeStatusWriter T) (arg1 : T.Context) (arg2 arg3 : T.Object)
    (arg4 : List T.SubResourceCreateOption) :
    (fake.Create arg1 arg2 arg3 arg4).2 =
      match fake.CreateStub with
      | some f => f arg1 arg2 arg3 arg4
      | none => configuredReturn fake.createReturnsOnCall fake.createReturns fake.CreateCallCount := by
  unfold Create CreateCallCount configuredReturn
  cases fake.CreateStub with
  | some f => rfl
  | none => cases fake.createReturnsOnCall (fake.createArgsForCall.length : Int) <;> rfl

theorem Patch_fst (fake : FakeStatusWriter T) (arg1 : T.Context) (arg2 : T.Object)
    (arg3 : T.Patch) (arg4 : List T.SubResourcePatchOption) :
    (fake.Patch arg1 arg2 arg3 arg4).1 =
      ({ fake with patchArgsForCall :=
          fake.patchArgsForCall ++ [{ arg1 := arg1, arg2 := arg2, arg3 := arg3, arg4 := arg4 }]
        } : FakeStatusWriter T).recordInvocation "Patch"
        (Invocation.Patch { arg1 := arg1, arg2 := arg2, arg3 := arg3, arg4 := arg4 }) := by
  unfold Patch
  cases fake.PatchStub with
  | some f => rfl
  | none => cases fake.patchReturnsOnCall (fake.patchArgsForCall.length : Int) <;> rfl

theorem Patch_snd (fake : FakeStatusWriter T) (arg1 : T.Context) (arg2 : T.Object)
    (arg3 : T.Patch) (arg4 : List T.SubResourcePatchOption) :
    (fake.Patch arg1 arg2 arg3 arg4).2 =
      match fake.PatchStub with
      | some f => f arg1 arg2 arg3 arg4
      | none => configuredReturn fake.patchReturnsOnCall fake.patchReturns fake.PatchCallCount := by
  unfold Patch PatchCallCount configuredReturn
  cases fake.PatchStub with
  | some f => rfl
  | none => cases fake.patchReturnsOnCall (fake.patchArgsForCall.length : Int) <;> rfl

theorem Update_fst (fake : FakeStatusWriter T) (arg1 : T.Context) (arg2 : T.Object)
    (arg3 : List T.SubResourceUpdateOption) :
    (fake.Update arg1 arg2 arg3).1 =
      ({ fake with updateArgsForCall :=
          fake.updateArgsForCall ++ [{ arg1 := arg1, arg2 := arg2, arg3 := arg3 }]
        } : FakeStatusWriter T).recordInvocation "Update"
        (Invocation.Update { arg1 := arg1, arg2 := arg2, arg3 := arg3 }) := by
  unfold Update
  cases fake.UpdateStub with
  | some f => rfl
  | none => cases fake.updateReturnsOnCall (fake.updateArgsForCall.length : Int) <;> rfl

theorem Update_snd (fake : FakeStatusWriter T) (arg1 : T.Context) (arg2 : T.Object)
    (arg3 : List T.SubResourceUpdateOption) :
    (fake.Update arg1 arg2 arg3).2 =
      match fake.UpdateStub with
      | some f => f arg1 arg2 arg3
      | none => configuredReturn fake.updateReturnsOnCall fake.updateReturns fake.UpdateCallCount := by
  unfold Update UpdateCallCount configuredReturn
  cases fake.UpdateStub with
  | some f => rfl
  | none => cases fake.updateReturnsOnCall (fake.updateArgsForCall.length : Int) <;> rfl

/-- What a call changes: it appends its arguments to the record of its own
operation, and leaves the other records, the stubs and the configured values as
they were. -/
theorem call_fields (fake : FakeStatusWriter T) (c : Invocation T) :
    ((fake.call c).1.createArgsForCall = fake.createArgsForCall ++ createCalls [c] ∧
      (fake.call c).1.patchArgsForCall = fake.patchArgsForCall ++ patchCalls [c] ∧
      (fake.call c).1.updateArgsForCall = fake.updateArgsForCall ++ updateCalls [c]) ∧
    ((fake.call c).1.CreateStub = fake.CreateStub ∧
      (fake.call c).1.createReturns = fake.createReturns ∧
      (fake.call c).1.createReturnsOnCall = fake.createReturnsOnCall) ∧
    ((fake.call c).1.PatchStub = fake.PatchStub ∧
      (fake.call c).1.patchReturns = fake.patchReturns ∧
      (fake.call c).1.patchReturnsOnCall = fake.patchReturnsOnCall) ∧
    ((fake.call c).1.UpdateStub = fake.UpdateStub ∧
      (fake.call c).1.updateReturns = fake.updateReturns ∧
      (fake.call c).1.updateReturnsOnCall = fake.updateReturnsOnCall) := by
  cases c with
  | Create args =>
    simp [call, Create_fst, recordInvocation, createCalls, patchCalls, updateCalls]
  | Patch args =>
    simp [call, Patch_fst, recordInvocation, createCalls, patchCalls, updateCalls]
  | Update args =>
    simp [call, Update_fst, recordInvocation, createCalls, patchCalls, updateCalls]

theorem createCalls_cons (c : Invocation T) (cs : List (Invocation T)) :
    createCalls (c :: cs) = createCalls [c] ++ createCalls cs := by
  cases c <;> simp [createCalls, List.filterMap_cons]

theorem patchCalls_cons (c : Invocation T) (cs : List (Invocation T)) :
    patchCalls (c :: cs) = patchCalls [c] ++ patchCalls cs := by
  cases c <;> simp [patchCalls, List.filterMap_cons]

theorem updateCalls_cons (c : Invocation T) (cs : List (Invocation T)) :
    updateCalls (c :: cs) = updateCalls [c] ++ updateCalls cs := by
  cases c <;> simp [updateCalls, List.filterMap_cons]

/-- What a sequence of calls changes: each record grows by the calls of its own
operation, in call order; stubs and configured values stay. -/
theorem callAll_fields (fake : FakeStatusWriter T) (calls : List (Invocation T)) :
    ((fake.callAll calls).1.createArgsForCall = fake.createArgsForCall ++ createCalls calls ∧
      (fake.callAll calls).1.patchArgsForCall = fake.patchArgsForCall ++ patchCalls calls ∧
      (fake.callAll calls).1.updateArgsForCall = fake.updateArgsForCall ++ updateCalls calls) ∧
    ((fake.callAll calls).1.CreateStub = fake.CreateStub ∧
      (fake.callAll calls).1.createReturns = fake.createReturns ∧
      (fake.callAll calls).1.createReturnsOnCall = fake.createReturnsOnCall) ∧
    ((fake.callAll calls).1.PatchStub = fake.PatchStub ∧
      (fake.callAll calls).1.patchReturns = fake.patchReturns ∧
      (fake.callAll calls).1.patchReturnsOnCall = fake.patchReturnsOnCall) ∧
    ((fake.callAll calls).1.UpdateStub = fake.UpdateStub ∧
      (fake.callAll calls).1.updateReturns = fake.updateReturns ∧
      (fake.callAll calls).1.updateReturnsOnCall = fake.updateReturnsOnCall) := by
  induction calls generalizing fake with
  | nil => simp [callAll, createCalls, patchCalls, updateCalls]
  | cons c cs ih =>
    obtain ⟨⟨a1, a2, a3⟩, ⟨b1, b2, b3⟩, ⟨c1, c2, c3⟩, ⟨d1, d2, d3⟩⟩ := call_fields fake c
    obtain ⟨⟨e1, e2, e3⟩, ⟨f1, f2, f3⟩, ⟨g1, g2, g3⟩, ⟨h1, h2, h3⟩⟩ := ih (fake.call c).1
    simp only [callAll]
    refine ⟨⟨?_, ?_, ?_⟩, ⟨?_, ?_, ?_⟩, ⟨?_, ?_, ?_⟩, ⟨?_, ?_, ?_⟩⟩
    · rw [e1, a1, createCalls_cons c cs, List.append_assoc]
    · rw [e2, a2, patchCalls_cons c cs, List.append_assoc]
    · rw [e3, a3, updateCalls_cons c cs, List.append_assoc]
    · rw [f1, b1]
    · rw [f2, b2]
    · rw [f3, b3]
    · rw [g1, c1]
    · rw [g2, c2]
    · rw [g3, c3]
    · rw [h1, d1]
    · rw [h2, d2]
    · rw [h3, d3]

theorem argsForCall_natCast {α : Type} (l : List α) (i : Nat) :
    (if 0 ≤ (i : Int) then l[(i : Int).toNat]? else none) = l[i]? := by
  simp

/-- C13: the test double records every call. For every fake (whatever stubs and
return values it holds, so whatever the calls return) and every sequence of
`Create`, `Patch` and `Update` calls, each call count grows by the number of
calls of its own operation in the sequence, the calls of the other two
operations leaving it alone, and `CreateArgsForCall i` (likewise `Patch`,
`Update`) is the `i`-th entry of what was recorded before followed by the
arguments of the calls of that operation in call order; from a fake without
recorded calls this is the number of such calls made and the arguments of the
`i`-th of them. -/
theorem calls_recorded (fake : FakeStatusWriter T) (calls : List (Invocation T)) :
    ((fake.callAll calls).1.CreateCallCount =
        fake.CreateCallCount + (createCalls calls).length ∧
      (fake.callAll calls).1.PatchCallCount =
        fake.PatchCallCount + (patchCalls calls).length ∧
      (fake.callAll calls).1.UpdateCallCount =
        fake.UpdateCallCount + (updateCalls calls).length) ∧
    (∀ i : Nat, (fake.callAll calls).1.CreateArgsForCall (i : Int) =
        (fake.createArgsForCall ++ createCalls calls)[i]?) ∧
    (∀ i : Nat, (fake.callAll calls).1.PatchArgsForCall (i : Int) =
        (fake.patchArgsForCall ++ patchCalls calls)[i]?) ∧
    (∀ i : Nat, (fake.callAll calls).1.UpdateArgsForCall (i : Int) =
        (fake.updateArgsForCall ++ updateCalls calls)[i]?) := by
  obtain ⟨⟨e1, e2, e3⟩, -⟩ := callAll_fields fake calls
  refine ⟨⟨?_, ?_, ?_⟩, fun i => ?_, fun i => ?_, fun i => ?_⟩
  · simp only [CreateCallCount, e1, List.length_append]
  · simp only [PatchCallCount, e2, List.length_append]
  · simp only [UpdateCallCount, e3, List.length_append]
  · simp only [CreateArgsForCall, e1, argsForCall_natCast]
  · simp only [PatchArgsForCall, e2, argsForCall_natCast]
  · simp only [UpdateArgsForCall, e3, argsForCall_natCast]

theorem callAll_append (fake : FakeStatusWriter T) (pre post : List (Invocation T)) :
    fake.callAll (pre ++ post) =
      (((fake.callAll pre).1.callAll post).1,
        (fake.callAll pre).2 ++ ((fake.callAll pre).1.callAll post).2) := by
  induction pre generalizing fake with
  | nil => simp [callAll]
  | cons c cs ih => simp [callAll, ih]

theorem callAll_length (fake : FakeStatusWriter T) (calls : List (Invocation T)) :
    (fake.callAll calls).2.length = calls.length := by
  induction calls generalizing fake with
  | nil => rfl
  | cons c cs ih => simp [callAll, ih]

/-- The value returned by the call that follows the calls `pre`. -/
theorem callAll_result_at (fake : FakeStatusWriter T) (pre post : List (Invocation T))
    (c : Invocation T) :
    (fake.callAll (pre ++ c :: post)).2[pre.length]? =
      some ((fake.callAll pre).1.call c).2 := by
  rw [callAll_append]
  simp only [callAll]
  rw [List.getElem?_append_right (by rw [callAll_length])]
  simp [callAll_length]

theorem create_result_at (fake : FakeStatusWriter T) (hstub : fake.CreateStub = none)
    (pre post : List (Invocation T)) (args : CreateArgs T) :
    (fake.callAll (pre ++ Invocation.Create args :: post)).2[pre.length]? =
      some (configuredReturn fake.createReturnsOnCall fake.createReturns
        (fake.CreateCallCount + (createCalls pre).length)) := by
  obtain ⟨⟨e1, -, -⟩, ⟨f1, f2, f3⟩, -, -⟩ := callAll_fields fake pre
  rw [callAll_result_at]
  simp only [call, Create_snd, f1, hstub, f2, f3, CreateCallCount, e1, List.length_append]

theorem patch_result_at (fake : FakeStatusWriter T) (hstub : fake.PatchStub = none)
    (pre post : List (Invocation T)) (args : PatchArgs T) :
    (fake.callAll (pre ++ Invocation.Patch args :: post)).2[pre.length]? =
      some (configuredReturn fake.patchReturnsOnCall fake.patchReturns
        (fake.PatchCallCount + (patchCalls pre).length)) := by
  obtain ⟨⟨-, e2, -⟩, -, ⟨g1, g2, g3⟩, -⟩ := callAll_fields fake pre
  rw [callAll_result_at]
  simp only [call, Patch_snd, g1, hstub, g2, g3, PatchCallCount, e2, List.length_append]

theorem update_result_at (fake : FakeStatusWriter T) (hstub : fake.UpdateStub = none)
    (pre post : List (Invocation T)) (args : UpdateArgs T) :
    (fake.callAll (pre ++ Invocation.Update args :: post)).2[pre.length]? =
      some (configuredReturn fake.updateReturnsOnCall fake.updateReturns
        (fake.UpdateCallCount + (updateCalls pre).length)) := by
  obtain ⟨⟨-, -, e3⟩, -, -, ⟨h1, h2, h3⟩⟩ := callAll_fields fake pre
  rw [callAll_result_at]
  simp only [call, Update_snd, h1, hstub, h2, h3, UpdateCallCount, e3, List.length_append]

/-- C14: configurable return values. With no stub installed, the call of an
operation that follows the calls `pre` (so call number `k`, counted for that
operation from 0, where `k` is the call count before `pre` plus the calls of
that operation in `pre`) returns the configured value for `k`: the per-call
value when one is stored for `k`, the blanket value otherwise. `ReturnsOnCall i
e` makes the configured value `e` at `i` and leaves it elsewhere; `Returns e`
makes `e` the blanket value and leaves the per-call values; a fake that was
never configured has nil everywhere. -/
theorem configured_return_values (fake : FakeStatusWriter T) (pre post : List (Invocation T)) :
    ((∀ args : CreateArgs T, fake.CreateStub = none →
        (fake.callAll (pre ++ Invocation.Create args :: post)).2[pre.length]? =
          some (configuredReturn fake.createReturnsOnCall fake.createReturns
            (fake.CreateCallCount + (createCalls pre).length))) ∧
      (∀ args : PatchArgs T, fake.PatchStub = none →
        (fake.callAll (pre ++ Invocation.Patch args :: post)).2[pre.length]? =
          some (configuredReturn fake.patchReturnsOnCall fake.patchReturns
            (fake.PatchCallCount + (patchCalls pre).length))) ∧
      (∀ args : UpdateArgs T, fake.UpdateStub = none →
        (fake.callAll (pre ++ Invocation.Update args :: post)).2[pre.length]? =
          some (configuredReturn fake.updateReturnsOnCall fake.updateReturns
            (fake.UpdateCallCount + (updateCalls pre).length)))) ∧
    (∀ (i : Int) (e : Option T.Error) (k : Nat),
      configuredReturn (fake.CreateReturnsOnCall i e).createReturnsOnCall
          (fake.CreateReturnsOnCall i e).createReturns k =
        (if (k : Int) = i then e
          else configuredReturn fake.createReturnsOnCall fake.createReturns k) ∧
      configuredReturn (fake.PatchReturnsOnCall i e).patchReturnsOnCall
          (fake.PatchReturnsOnCall i e).patchReturns k =
        (if (k : Int) = i then e
          else configuredReturn fake.patchReturnsOnCall fake.patchReturns k) ∧
      configuredReturn (fake.UpdateReturnsOnCall i e).updateReturnsOnCall
          (fake.UpdateReturnsOnCall i e).updateReturns k =
        (if (k : Int) = i then e
          else configuredReturn fake.updateReturnsOnCall fake.updateReturns k)) ∧
    (∀ (e : Option T.Error) (k : Nat),
      configuredReturn (fake.CreateReturns e).createReturnsOnCall
          (fake.CreateReturns e).createReturns k =
        configuredReturn fake.createReturnsOnCall e k ∧
      configuredReturn (fake.PatchReturns e).patchReturnsOnCall
          (fake.PatchReturns e).patchReturns k =
        configuredReturn fake.patchReturnsOnCall e k ∧
      configuredReturn (fake.UpdateReturns e).updateReturnsOnCall
          (fake.UpdateReturns e).updateReturns k =
        configuredReturn fake.updateReturnsOnCall e k) ∧
    (∀ k : Nat,
      configuredReturn ({} : FakeStatusWriter T).createReturnsOnCall
          ({} : FakeStatusWriter T).createReturns k = none ∧
      configuredReturn ({} : FakeStatusWriter T).patchReturnsOnCall
          ({} : FakeStatusWriter T).patchReturns k = none ∧
      configuredReturn ({} : FakeStatusWriter T).updateReturnsOnCall
          ({} : FakeStatusWriter T).updateReturns k = none) := by
  refine ⟨⟨fun args h => create_result_at fake h pre post args,
    fun args h => patch_result_at fake h pre post args,
    fun args h => update_result_at fake h pre post args⟩, ?_, ?_, ?_⟩
  · intro i e k
    refine ⟨?_, ?_, ?_⟩ <;>
      by_cases hk : (k : Int) = i <;>
      simp [configuredReturn, CreateReturnsOnCall, PatchReturnsOnCall, UpdateReturnsOnCall, hk]
  · intro e k
    exact ⟨rfl, rfl, rfl⟩
  · intro k
    exact ⟨rfl, rfl, rfl⟩

/-- Witness of C14: after `PatchReturnsOnCall(0, conflict)` and
`PatchReturnsOnCall(1, nil)` on a fresh fake, the first `Patch` returns the
conflict, the second returns nil, and `PatchCallCount` is 2. -/
theorem configured_return_values_witness :
    ((conflictThenSuccess.callAll
        [Invocation.Patch { arg1 := (), arg2 := "run", arg3 := "status-1", arg4 := [] },
         Invocation.Patch { arg1 := (), arg2 := "run", arg3 := "status-2", arg4 := [] }]).2[0]? =
      some (some "conflict")) ∧
    ((conflictThenSuccess.callAll
        [Invocation.Patch { arg1 := (), arg2 := "run", arg3 := "status-1", arg4 := [] },
         Invocation.Patch { arg1 := (), arg2 := "run", arg3 := "status-2", arg4 := [] }]).2[1]? =
      some none) ∧
    (conflictThenSuccess.callAll
        [Invocation.Patch { arg1 := (), arg2 := "run", arg3 := "status-1", arg4 := [] },
         Invocation.Patch { arg1 := (), arg2 := "run", arg3 := "status-2", arg4 := [] }]
      ).1.PatchCallCount = 2 :=
  ⟨(configured_return_values conflictThenSuccess []
      [Invocation.Patch { arg1 := (), arg2 := "run", arg3 := "status-2", arg4 := [] }]).1.2.1
      { arg1 := (), arg2 := "run", arg3 := "status-1", arg4 := [] } rfl,
    (configured_return_values conflictThenSuccess
      [Invocation.Patch { arg1 := (), arg2 := "run", arg3 := "status-1", arg4 := [] }] []).1.2.1
      { arg1 := (), arg2 := "run", arg3 := "status-2", arg4 := [] } rfl,
    rfl⟩

theorem create_stub_result_at (fake : FakeStatusWriter T)
    (f : T.Context → T.Object → T.Object → List T.SubResourceCreateOption → Option T.Error)
    (hstub : fake.CreateStub = some f) (pre post : List (Invocation T)) (args : CreateArgs T) :
    (fake.callAll (pre ++ Invocation.Create args :: post)).2[pre.length]? =
      some (f args.arg1 args.arg2 args.arg3 args.arg4) := by
  obtain ⟨-, ⟨f1, -, -⟩, -, -⟩ := callAll_fields fake pre
  rw [callAll_result_at]
  simp only [call, Create_snd, f1, hstub]

theorem patch_stub_result_at (fake : FakeStatusWriter T)
    (f : T.Context → T.Object → T.Patch → List T.SubResourcePatchOption → Option T.Error)
    (hstub : fake.PatchStub = some f) (pre post : List (Invocation T)) (args : PatchArgs T) :
    (fake.callAll (pre ++ Invocation.Patch args :: post)).2[pre.length]? =
      some (f args.arg1 args.arg2 args.arg3 args.arg4) := by
  obtain ⟨-, -, ⟨g1, -, -⟩, -⟩ := callAll_fields fake pre
  rw [callAll_result_at]
  simp only [call, Patch_snd, g1, hstub]

theorem update_stub_result_at (fake : FakeStatusWriter T)
    (f : T.Context → T.Object → List T.SubResourceUpdateOption → Option T.Error)
    (hstub : fake.UpdateStub = some f) (pre post : List (Invocation T)) (args : UpdateArgs T) :
    (fake.callAll (pre ++ Invocation.Update args :: post)).2[pre.length]? =
      some (f args.arg1 args.arg2 args.arg3) := by
  obtain ⟨-, -, -, ⟨h1, -, -⟩⟩ := callAll_fields fake pre
  rw [callAll_result_at]
  simp only [call, Update_snd, h1, hstub]

/-- C20: stub precedence. A call made while a stub is installed returns what the
stub returns on the arguments of the call, whatever values are configured.
`Returns` and `ReturnsOnCall` uninstall the stub of their operation: the fake
they leave holds no stub, and is the fake they would have left had the stub
never been installed. So after `CreateCalls(f)` and then
`CreateReturnsOnCall(i, e)`, every later `Create` call returns a configured
value, `e` at call number `i` and elsewhere what was configured before (the
blanket value where no per-call value is stored); likewise for `Patch` and
`Update`. `CreateCalls`, `PatchCalls` and `UpdateCalls` are what installs a
stub: the fake they leave holds the stub they were given, and after
`CreateCalls(f)` every later `Create` call, whatever other calls come in
between, returns what `f` returns on its arguments. And once `Returns` or
`ReturnsOnCall` has followed, `f` is not invoked again: a call invokes the stub
the fake holds when it is made, and after any sequence of later calls the fake
still holds none, for each of the three operations. -/
theorem stub_precedence (fake : FakeStatusWriter T) :
    ((∀ f (arg1 : T.Context) (arg2 arg3 : T.Object) (arg4 : List T.SubResourceCreateOption),
        fake.CreateStub = some f → (fake.Create arg1 arg2 arg3 arg4).2 = f arg1 arg2 arg3 arg4) ∧
      (∀ f (arg1 : T.Context) (arg2 : T.Object) (arg3 : T.Patch)
          (arg4 : List T.SubResourcePatchOption),
        fake.PatchStub = some f → (fake.Patch arg1 arg2 arg3 arg4).2 = f arg1 arg2 arg3 arg4) ∧
      (∀ f (arg1 : T.Context) (arg2 : T.Object) (arg3 : List T.SubResourceUpdateOption),
        fake.UpdateStub = some f → (fake.Update arg1 arg2 arg3).2 = f arg1 arg2 arg3)) ∧
    ((∀ stub e, (fake.CreateCalls stub).CreateReturns e = fake.CreateReturns e ∧
        (fake.CreateReturns e).CreateStub = none) ∧
      (∀ stub i e, (fake.CreateCalls stub).CreateReturnsOnCall i e =
          fake.CreateReturnsOnCall i e ∧
        (fake.CreateReturnsOnCall i e).CreateStub = none) ∧
      (∀ stub e, (fake.PatchCalls stub).PatchReturns e = fake.PatchReturns e ∧
        (fake.PatchReturns e).PatchStub = none) ∧
      (∀ stub i e, (fake.PatchCalls stub).PatchReturnsOnCall i e =
          fake.PatchReturnsOnCall i e ∧
        (fake.PatchReturnsOnCall i e).PatchStub = none) ∧
      (∀ stub e, (fake.UpdateCalls stub).UpdateReturns e = fake.UpdateReturns e ∧
        (fake.UpdateReturns e).UpdateStub = none) ∧
      (∀ stub i e, (fake.UpdateCalls stub).UpdateReturnsOnCall i e =
          fake.UpdateReturnsOnCall i e ∧
        (fake.UpdateReturnsOnCall i e).UpdateStub = none)) ∧
    ((∀ stub (i : Int) (e : Option T.Error) (pre post : List (Invocation T))
          (args : CreateArgs T),
        (((fake.CreateCalls stub).CreateReturnsOnCall i e).callAll
            (pre ++ Invocation.Create args :: post)).2[pre.length]? =
          some (if ((fake.CreateCallCount + (createCalls pre).length : Nat) : Int) = i then e
            else configuredReturn fake.createReturnsOnCall fake.createReturns
              (fake.CreateCallCount + (createCalls pre).length))) ∧
      (∀ stub (i : Int) (e : Option T.Error) (pre post : List (Invocation T))
          (args : PatchArgs T),
        (((fake.PatchCalls stub).PatchReturnsOnCall i e).callAll
            (pre ++ Invocation.Patch args :: post)).2[pre.length]? =
          some (if ((fake.PatchCallCount + (patchCalls pre).length : Nat) : Int) = i then e
            else configuredReturn fake.patchReturnsOnCall fake.patchReturns
              (fake.PatchCallCount + (patchCalls pre).length))) ∧
      (∀ stub (i : Int) (e : Option T.Error) (pre post : List (Invocation T))
          (args : UpdateArgs T),
        (((fake.UpdateCalls stub).UpdateReturnsOnCall i e).callAll
            (pre ++ Invocation.Update args :: post)).2[pre.length]? =
          some (if ((fake.UpdateCallCount + (updateCalls pre).length : Nat) : Int) = i then e
            else configuredReturn fake.updateReturnsOnCall fake.updateReturns
              (fake.UpdateCallCount + (updateCalls pre).length)))) ∧
    (((∀ stub, (fake.CreateCalls stub).CreateStub = stub) ∧
        ∀ f (pre post : List (Invocation T)) (args : CreateArgs T),
          ((fake.CreateCalls (some f)).callAll
              (pre ++ Invocation.Create args :: post)).2[pre.length]? =
            some (f args.arg1 args.arg2 args.arg3 args.arg4)) ∧
      ((∀ stub, (fake.PatchCalls stub).PatchStub = stub) ∧
        ∀ f (pre post : List (Invocation T)) (args : PatchArgs T),
          ((fake.PatchCalls (some f)).callAll
              (pre ++ Invocation.Patch args :: post)).2[pre.length]? =
            some (f args.arg1 args.arg2 args.arg3 args.arg4)) ∧
      ((∀ stub, (fake.UpdateCalls stub).UpdateStub = stub) ∧
        ∀ f (pre post : List (Invocation T)) (args : UpdateArgs T),
          ((fake.UpdateCalls (some f)).callAll
              (pre ++ Invocation.Update args :: post)).2[pre.length]? =
            some (f args.arg1 args.arg2 args.arg3))) ∧
    ((∀ stub (i : Int) (e e' : Option T.Error) (calls : List (Invocation T)),
        (((fake.CreateCalls stub).CreateReturnsOnCall i e).callAll calls).1.CreateStub = none ∧
        (((fake.CreateCalls stub).CreateReturns e').callAll calls).1.CreateStub = none) ∧
      (∀ stub (i : Int) (e e' : Option T.Error) (calls : List (Invocation T)),
        (((fake.PatchCalls stub).PatchReturnsOnCall i e).callAll calls).1.PatchStub = none ∧
        (((fake.PatchCalls stub).PatchReturns e').callAll calls).1.PatchStub = none) ∧
      (∀ stub (i : Int) (e e' : Option T.Error) (calls : List (Invocation T)),
        (((fake.UpdateCalls stub).UpdateReturnsOnCall i e).callAll calls).1.UpdateStub = none ∧
        (((fake.UpdateCalls stub).UpdateReturns e').callAll calls).1.UpdateStub = none)) := by
  refine ⟨⟨?_, ?_, ?_⟩, ⟨?_, ?_, ?_, ?_, ?_, ?_⟩, ⟨?_, ?_, ?_⟩,
    ⟨⟨fun _ => rfl, fun f pre post args => create_stub_result_at _ f rfl pre post args⟩,
      ⟨fun _ => rfl, fun f pre post args => patch_stub_result_at _ f rfl pre post args⟩,
      ⟨fun _ => rfl, fun f pre post args => update_stub_result_at _ f rfl pre post args⟩⟩,
    ⟨fun stub i e e' calls =>
        ⟨(callAll_fields ((fake.CreateCalls stub).CreateReturnsOnCall i e) calls).2.1.1,
          (callAll_fields ((fake.CreateCalls stub).CreateReturns e') calls).2.1.1⟩,
      fun stub i e e' calls =>
        ⟨(callAll_fields ((fake.PatchCalls stub).PatchReturnsOnCall i e) calls).2.2.1.1,
          (callAll_fields ((fake.PatchCalls stub).PatchReturns e') calls).2.2.1.1⟩,
      fun stub i e e' calls =>
        ⟨(callAll_fields ((fake.UpdateCalls stub).UpdateReturnsOnCall i e) calls).2.2.2.1,
          (callAll_fields ((fake.UpdateCalls stub).UpdateReturns e') calls).2.2.2.1⟩⟩⟩
  · intro f arg1 arg2 arg3 arg4 h
    rw [Create_snd, h]
  · intro f arg1 arg2 arg3 arg4 h
    rw [Patch_snd, h]
  · intro f arg1 arg2 arg3 h
    rw [Update_snd, h]
  · exact fun _ _ => ⟨rfl, rfl⟩
  · exact fun _ _ _ => ⟨rfl, rfl⟩
  · exact fun _ _ => ⟨rfl, rfl⟩
  · exact fun _ _ _ => ⟨rfl, rfl⟩
  · exact fun _ _ => ⟨rfl, rfl⟩
  · exact fun _ _ _ => ⟨rfl, rfl⟩
  · intro stub i e pre post args
    rw [create_result_at _ rfl]
    by_cases hk : ((fake.CreateCallCount + (createCalls pre).length : Nat) : Int) = i <;>
      simp [configuredReturn, CreateReturnsOnCall, CreateCalls, CreateCallCount, hk] <;>
      simp [CreateCallCount] at hk <;> simp [hk]
  · intro stub i e pre post args
    rw [patch_result_at _ rfl]
    by_cases hk : ((fake.PatchCallCount + (patchCalls pre).length : Nat) : Int) = i <;>
      simp [configuredReturn, PatchReturnsOnCall, PatchCalls, PatchCallCount, hk] <;>
      simp [PatchCallCount] at hk <;> simp [hk]
  · intro stub i e pre post args
    rw [update_result_at _ rfl]
    by_cases hk : ((fake.UpdateCallCount + (updateCalls pre).length : Nat) : Int) = i <;>
      simp [configuredReturn, UpdateReturnsOnCall, UpdateCalls, UpdateCallCount, hk] <;>
      simp [UpdateCallCount] at hk <;> simp [hk]

/-- Witness of C20: with the blanket value `blanket` configured and a stub
installed afterwards by `CreateCalls`, `Create` returns what the stub returns;
once `CreateReturnsOnCall(1, late)` has followed, the first `Create` returns the
blanket value and the second returns `late`. -/
theorem stub_precedence_witness :
    ((((({} : FakeStatusWriter exampleTypes).CreateReturns (some "blanket")).CreateCalls
        (some fun _ object _ _ => some ("stub saw " ++ object))).Create () "run" "status" []).2 =
      some "stub saw run") ∧
    ((((({} : FakeStatusWriter exampleTypes).CreateReturns (some "blanket")).CreateCalls
        (some fun _ object _ _ => some ("stub saw " ++ object))).CreateReturnsOnCall 1
          (some "late")).callAll
        [Invocation.Create { arg1 := (), arg2 := "run", arg3 := "status", arg4 := [] },
         Invocation.Create { arg1 := (), arg2 := "run", arg3 := "status", arg4 := [] }]).2 =
      [some "blanket", some "late"] :=
  ⟨(stub_precedence
      ((({} : FakeStatusWriter exampleTypes).CreateReturns (some "blanket")).CreateCalls
        (some fun _ object _ _ => some ("stub saw " ++ object)))).1.1
      (fun _ object _ _ => some ("stub saw " ++ object)) () "run" "status" [] rfl,
    rfl⟩

/-- While the context is live and every `Patch` returns the same conflict, the
commit uses all its attempts and returns that conflict. -/
theorem commitStatus_conflicts (isConflict : T.Error → Bool)
    (contextErr : T.Context → Nat → Option T.Error) (refetch : Nat → T.Object)
    (merge : T.Object → T.Object) (patchOf : T.Object → T.Patch) (ctx : T.Context)
    (conflict : T.Error) (hconflict : isConflict conflict = true) (retries : Nat) :
    ∀ (attempt : Nat) (object : T.Object) (writer : FakeStatusWriter T),
      (∀ k, attempt ≤ k → k ≤ attempt + retries → contextErr ctx k = none) →
      writer.PatchStub = none → writer.patchReturnsOnCall = (fun _ => none) →
      writer.patchReturns = some conflict →
      (commitStatus isConflict contextErr refetch merge patchOf ctx retries attempt object
          writer).2 = some conflict ∧
        (commitStatus isConflict contextErr refetch merge patchOf ctx retries attempt object
          writer).1.PatchCallCount = writer.PatchCallCount + retries + 1 := by
  induction retries with
  | zero =>
    intro attempt object writer hlive hstub hspecific hblanket
    have h0 := hlive attempt (Nat.le_refl _) (Nat.le_refl _)
    refine ⟨?_, ?_⟩
    · simp only [commitStatus, h0, Patch_snd, hstub, hspecific, hblanket, configuredReturn]
    · simp [commitStatus, h0, Patch_fst, PatchCallCount, recordInvocation]
  | succ retries ih =>
    intro attempt object writer hlive hstub hspecific hblanket
    have h0 := hlive attempt (Nat.le_refl _) (by omega)
    have hsent : (writer.Patch ctx object (patchOf object) []).2 = some conflict := by
      simp only [Patch_snd, hstub, hspecific, hblanket, configuredReturn]
    have hnext := ih (attempt + 1) (merge (refetch (attempt + 1)))
      (writer.Patch ctx object (patchOf object) []).1
      (fun k hk1 hk2 => hlive k (by omega) (by omega))
      (by simp [Patch_fst, recordInvocation, hstub])
      (by simp [Patch_fst, recordInvocation, hspecific])
      (by simp [Patch_fst, recordInvocation, hblanket])
    have hcount : (writer.Patch ctx object (patchOf object) []).1.PatchCallCount =
        writer.PatchCallCount + 1 := by
      simp [Patch_fst, PatchCallCount, recordInvocation]
    simp only [commitStatus, h0, hsent, hconflict, if_true]
    refine ⟨hnext.1, ?_⟩
    rw [hnext.2, hcount]
    omega

/-- C12: conflict retry, on the modelled status commit. Take a fake on which no
`Patch` was recorded, configured by `PatchReturnsOnCall(0, conflict)` and
`PatchReturnsOnCall(1, nil)`. While the context is live at both attempts, a
commit with at least one retry succeeds (returns nil) with exactly two recorded
`Patch` calls: the first carries the prepared object, the second the merge of
the freshly read remote object. If instead the context is done when the retry
is due, the commit stops after the one recorded `Patch` and returns the
cancellation error; if it is done from the start, no `Patch` is made. And when
every `Patch` returns the conflict under a context that stays live, a commit
with `retries` retries makes `retries + 1` calls and returns the conflict to its
caller. -/
theorem conflict_retry (isConflict : T.Error → Bool)
    (contextErr : T.Context → Nat → Option T.Error) (refetch : Nat → T.Object)
    (merge : T.Object → T.Object) (patchOf : T.Object → T.Patch) (ctx : T.Context)
    (conflict : T.Error) (hconflict : isConflict conflict = true)
    (prepared : T.Object) (retries : Nat) (fake : FakeStatusWriter T)
    (hfresh : fake.PatchCallCount = 0) :
    (contextErr ctx 0 = none → contextErr ctx 1 = none →
      (commitStatus isConflict contextErr refetch merge patchOf ctx (retries + 1) 0 prepared
          ((fake.PatchReturnsOnCall 0 (some conflict)).PatchReturnsOnCall 1 none)).2 = none ∧
      (commitStatus isConflict contextErr refetch merge patchOf ctx (retries + 1) 0 prepared
          ((fake.PatchReturnsOnCall 0 (some conflict)).PatchReturnsOnCall 1
            none)).1.PatchCallCount = 2 ∧
      (commitStatus isConflict contextErr refetch merge patchOf ctx (retries + 1) 0 prepared
          ((fake.PatchReturnsOnCall 0 (some conflict)).PatchReturnsOnCall 1
            none)).1.PatchArgsForCall 0 =
        some { arg1 := ctx, arg2 := prepared, arg3 := patchOf prepared, arg4 := [] } ∧
      (commitStatus isConflict contextErr refetch merge patchOf ctx (retries + 1) 0 prepared
          ((fake.PatchReturnsOnCall 0 (some conflict)).PatchReturnsOnCall 1
            none)).1.PatchArgsForCall 1 =
        some { arg1 := ctx, arg2 := merge (refetch 1), arg3 := patchOf (merge (refetch 1)),
               arg4 := [] }) ∧
    (∀ cancelled : T.Error, contextErr ctx 0 = none → contextErr ctx 1 = some cancelled →
      (commitStatus isConflict contextErr refetch merge patchOf ctx (retries + 1) 0 prepared
          ((fake.PatchReturnsOnCall 0 (some conflict)).PatchReturnsOnCall 1 none)).2 =
        some cancelled ∧
      (commitStatus isConflict contextErr refetch merge patchOf ctx (retries + 1) 0 prepared
          ((fake.PatchReturnsOnCall 0 (some conflict)).PatchReturnsOnCall 1
            none)).1.PatchCallCount = 1) ∧
    (∀ cancelled : T.Error, contextErr ctx 0 = some cancelled →
      commitStatus isConflict contextErr refetch merge patchOf ctx (retries + 1) 0 prepared
          ((fake.PatchReturnsOnCall 0 (some conflict)).PatchReturnsOnCall 1 none) =
        ((fake.PatchReturnsOnCall 0 (some conflict)).PatchReturnsOnCall 1 none,
          some cancelled)) ∧
    ((∀ k, k ≤ retries → contextErr ctx k = none) →
      (commitStatus isConflict contextErr refetch merge patchOf ctx retries 0 prepared
          (({ fake with patchReturnsOnCall := fun _ => none } :
            FakeStatusWriter T).PatchReturns (some conflict))).2 = some conflict ∧
      (commitStatus isConflict contextErr refetch merge patchOf ctx retries 0 prepared
          (({ fake with patchReturnsOnCall := fun _ => none } :
            FakeStatusWriter T).PatchReturns (some conflict))).1.PatchCallCount =
        retries + 1) := by
  have hargs : fake.patchArgsForCall = [] := List.length_eq_zero.mp hfresh
  have hfirst : (((fake.PatchReturnsOnCall 0 (some conflict)).PatchReturnsOnCall 1 none).Patch
      ctx prepared (patchOf prepared) []).2 = some conflict := by
    simp [Patch_snd, PatchReturnsOnCall, configuredReturn, PatchCallCount, hargs]
  have hsecond : ((((fake.PatchReturnsOnCall 0 (some conflict)).PatchReturnsOnCall 1 none).Patch
      ctx prepared (patchOf prepared) []).1.Patch ctx (merge (refetch 1))
        (patchOf (merge (refetch 1))) []).2 = none := by
    simp [Patch_snd, Patch_fst, PatchReturnsOnCall, configuredReturn, PatchCallCount,
      recordInvocation, hargs]
  refine ⟨fun h0 h1 => ?_, fun cancelled h0 h1 => ?_, fun cancelled h0 => ?_, fun hlive => ?_⟩
  · cases retries with
    | zero =>
      simp only [commitStatus, h0, hfirst, hconflict, if_true, Nat.zero_add, h1, hsecond]
      simp [Patch_fst, PatchReturnsOnCall, PatchCallCount, PatchArgsForCall, recordInvocation,
        hargs]
    | succ n =>
      simp only [commitStatus, h0, hfirst, hconflict, if_true, Nat.zero_add, h1, hsecond]
      simp [Patch_fst, PatchReturnsOnCall, PatchCallCount, PatchArgsForCall, recordInvocation,
        hargs]
  · cases retries with
    | zero =>
      simp only [commitStatus, h0, hfirst, hconflict, if_true, Nat.zero_add, h1]
      simp [Patch_fst, PatchReturnsOnCall, PatchCallCount, recordInvocation, hargs]
    | succ n =>
      simp only [commitStatus, h0, hfirst, hconflict, if_true, Nat.zero_add, h1]
      simp [Patch_fst, PatchReturnsOnCall, PatchCallCount, recordInvocation, hargs]
  · simp only [commitStatus, h0]
  · have h := commitStatus_conflicts isConflict contextErr refetch merge patchOf ctx conflict
      hconflict retries 0 prepared
      (({ fake with patchReturnsOnCall := fun _ => none } :
        FakeStatusWriter T).PatchReturns (some conflict))
      (fun k _ hk => hlive k (by omega)) rfl rfl rfl
    refine ⟨h.1, ?_⟩
    rw [h.2]
    simp [PatchReturns, PatchCallCount, hargs]

/-- Witness of C12: a fresh fake with a conflict configured for the first
`Patch` and nil for the second, a context that stays live, and a commit with two
retries: it succeeds, and two `Patch` calls are recorded. -/
theorem conflict_retry_witness :
    (commitStatus (fun e : String => decide (e = "conflict")) (fun _ _ => none)
        (fun _ => "remote") (fun object : String => object ++ "+results")
        (fun object : String => object) () (1 + 1) 0 "prepared"
        ((({} : FakeStatusWriter exampleTypes).PatchReturnsOnCall 0
          (some "conflict")).PatchReturnsOnCall 1 none)).2 = none ∧
    (commitStatus (fun e : String => decide (e = "conflict")) (fun _ _ => none)
        (fun _ => "remote") (fun object : String => object ++ "+results")
        (fun object : String => object) () (1 + 1) 0 "prepared"
        ((({} : FakeStatusWriter exampleTypes).PatchReturnsOnCall 0
          (some "conflict")).PatchReturnsOnCall 1 none)).1.PatchCallCount = 2 :=
  ⟨((conflict_retry (fun e : String => decide (e = "conflict")) (fun _ _ => none)
      (fun _ => "remote") (fun object : String => object ++ "+results")
      (fun object : String => object) ()
      "conflict" (by decide) "prepared" 1 ({} : FakeStatusWriter exampleTypes) rfl).1
      rfl rfl).1,
    ((conflict_retry (fun e : String => decide (e = "conflict")) (fun _ _ => none)
      (fun _ => "remote") (fun object : String => object ++ "+results")
      (fun object : String => object) ()
      "conflict" (by decide) "prepared" 1 ({} : FakeStatusWriter exampleTypes) rfl).1
      rfl rfl).2.1⟩

end FakeStatusWriter

end Fakes
